/-
  Verification of the Sayl HTTP load generator (github.com/Amr-9/Sayl)
  against its natural-language specification.

  This file shallowly embeds the Go source of the repository in Lean 4:
  pure fragments become Lean functions, stateful code becomes explicit
  state passing, machine integers become Nat/Int (the int64/uint64
  counters cannot overflow in any physically realisable run, so wrap-
  around is not modelled), and fallible code returns Except/Option.
  Concurrency primitives (atomics, mutexes, sync.Map) are modelled in
  the sequential semantics that the source itself documents: results are
  delivered to the stats monitor by a single consumer goroutine, and the
  circuit breaker is polled by a single ticker goroutine.
-/
import Mathlib

namespace Sayl

/-! ## Basic data model (src/pkg/models/types.go)

`GoErr` models a Go `error` value as carried inside a `models.Result`:
its message string plus the classification bit computed by
`stats.isTimeout` (true iff the error is a `net.Error` with
`Timeout() == true` or `os.IsTimeout` holds). -/

structure GoErr where
  msg : String
  timeoutFlag : Bool
deriving DecidableEq, Repr

/-- `models.Result` — the fields the statistics monitor and the retry
loop read.  `latencyUs` is `res.Latency.Microseconds()` (int64), `status`
is the Go `int` HTTP status, `bytes` is `res.Bytes` (int64). -/
structure Result where
  latencyUs : Int
  status : Int
  bytes : Int
  error : Option GoErr
  assertionError : Option String
  protocol : String
deriving DecidableEq, Repr

/-- `stats.isTimeout` (src/unnamed/part_001 lines 16-27): nil errors are
not timeouts; otherwise the net.Error/os.IsTimeout classification,
carried here as the `timeoutFlag` bit of the error. -/
def isTimeout (err : Option GoErr) : Bool :=
  match err with
  | none => false
  | some e => e.timeoutFlag

/-! ## Concurrent multisets (`sync.Map` of `*atomic.Int64`)

`syncMapInc` (part_001 lines 31-42) increments the counter for a key,
inserting a fresh counter holding 1 on first sight.  In the sequential
semantics of the single consumer this is exactly an association-list
increment. -/

abbrev MSet (α : Type) := List (α × Int)

/-- Map read: the counter stored for `k` (0 when absent). -/
def msetGet [DecidableEq α] : MSet α → α → Int
  | [], _ => 0
  | kv :: rest, k => if kv.1 = k then kv.2 else msetGet rest k

def syncMapInc [DecidableEq α] (m : MSet α) (k : α) : MSet α :=
  match m with
  | [] => [(k, 1)]
  | kv :: rest =>
    if kv.1 = k then (kv.1, kv.2 + 1) :: rest
    else kv :: syncMapInc rest k

/-- Number of distinct keys currently stored. -/
def msetSize (m : MSet α) : Int := (m.length : Int)

/-! ## Per-second buckets and the monitor (src/unnamed/part_001)

The two HDR histograms plus the cumulative histogram of the
double-buffering scheme are, sequentially, just the multiset of latency
values recorded since the last reset; we model that multiset as the list
`hist` of recorded values (`RecordValue` appends). -/

structure SecondBucket where
  requests : Int
  success : Int
  fail : Int
  totalLatency : Int -- microseconds
  totalBytes : Int
  statusCodes : MSet Int
  hist : List Int

def emptyBucket : SecondBucket :=
  { requests := 0, success := 0, fail := 0, totalLatency := 0
    totalBytes := 0, statusCodes := [], hist := [] }

/-- `maxErrorBuckets` (part_001 line 64). -/
def maxErrorBuckets : Int := 100

/-- `bucketWindow` (part_001 line 110). -/
def bucketWindow : Nat := 300

structure Monitor where
  requests : Int
  success : Int
  fail : Int
  assertionFailures : Int
  statusCodes : MSet Int
  errors : MSet String
  uniqueErrorCount : Int
  assertionErrors : MSet String
  protocolCounts : MSet String
  totalBytes : Int
  hist : List Int
  bucketRing : List SecondBucket
  bucketRingCap : Nat
  bucketTotal : Nat

/-- `stats.NewMonitor` (part_001 lines 112-140): 300 pre-allocated empty
ring slots, all counters zero. -/
def NewMonitor : Monitor :=
  { requests := 0, success := 0, fail := 0, assertionFailures := 0
    statusCodes := [], errors := [], uniqueErrorCount := 0
    assertionErrors := [], protocolCounts := [], totalBytes := 0
    hist := []
    bucketRing := List.replicate bucketWindow emptyBucket
    bucketRingCap := bucketWindow
    bucketTotal := 0 }

/-- The slot-reset inside `getOrCreateBucket` (part_001 lines 151-163)
zeroes every counter, empties the status map and resets all three
histograms — i.e. the slot becomes `emptyBucket`. -/
def advanceLoop (second ringCap : Nat) : Nat → Nat → List SecondBucket → Nat × List SecondBucket
  | 0, bucketTotal, ring => (bucketTotal, ring)
  | fuel + 1, bucketTotal, ring =>
    if bucketTotal ≤ second then
      advanceLoop second ringCap fuel (bucketTotal + 1)
        (ring.set (bucketTotal % ringCap) emptyBucket)
    else (bucketTotal, ring)

/-- `Monitor.getOrCreateBucket` (part_001 lines 142-167): advance
`bucketTotal` past `second`, resetting each recycled slot before use;
the caller then addresses slot `second % bucketRingCap`. -/
def getOrCreateBucket (m : Monitor) (second : Nat) : Monitor :=
  let r := advanceLoop second m.bucketRingCap (second + 1 - m.bucketTotal)
    m.bucketTotal m.bucketRing
  { m with bucketTotal := r.1, bucketRing := r.2 }

/-- The ring slot a given second maps to. -/
def bucketAt (m : Monitor) (second : Nat) : SecondBucket :=
  (m.bucketRing.get? (second % m.bucketRingCap)).getD emptyBucket

def setBucketAt (m : Monitor) (second : Nat) (b : SecondBucket) : Monitor :=
  { m with bucketRing := m.bucketRing.set (second % m.bucketRingCap) b }

/-- The error-map insertion of `Monitor.Add` (part_001 lines 195-214):
fast-path increment for known keys, capped insertion for new keys,
fold-into-"other" beyond `maxErrorBuckets`. -/
def addError (errors : MSet String) (uniqueErrorCount : Int) (sanitized : String) :
    MSet String × Int :=
  match List.find? (fun kv => kv.1 = sanitized) errors with
  | some _ => (syncMapInc errors sanitized, uniqueErrorCount)
  | none =>
    if uniqueErrorCount < maxErrorBuckets then
      (syncMapInc errors sanitized, uniqueErrorCount + 1)
    else
      (syncMapInc errors "other", uniqueErrorCount)

/-- The timeout reclassification of `Monitor.Add` (part_001 lines
186-191): a status-0 result with a timeout-classified transport error is
counted under sentinel status 1. -/
def reclassifyStatus (res : Result) : Int :=
  if res.status = 0 && res.error.isSome && isTimeout res.error then 1
  else res.status

/-- The per-second half of `Monitor.Add` (part_001 lines 233-248): bump
the bucket counters, always add the latency into `totalLatency`, count
the (reclassified) status, and record into the bucket histogram only
when there was no transport error. -/
def bucketRecord (res : Result) (isSuccess hasAssertionError : Bool)
    (status : Int) (b : SecondBucket) : SecondBucket :=
  let b := { b with
    requests := b.requests + 1
    totalLatency := b.totalLatency + res.latencyUs
    totalBytes := b.totalBytes + res.bytes }
  let b :=
    if isSuccess && !hasAssertionError then { b with success := b.success + 1 }
    else { b with fail := b.fail + 1 }
  let b := { b with statusCodes := syncMapInc b.statusCodes status }
  if res.error.isNone then { b with hist := b.hist ++ [res.latencyUs] } else b

/-- `Monitor.Add` (part_001 lines 170-249).  `sanitize` is the
`stats.sanitizeError` function from the helper file (its internals are
irrelevant to every property proved below, so the model is parametric in
it); `second` is `int(time.Since(m.startTime).Seconds())` for this call,
supplied by the clock. -/
def MonitorAdd (sanitize : String → String) (second : Nat)
    (res : Result) (isSuccess : Bool) (m : Monitor) : Monitor :=
  let hasAssertionError := res.assertionError.isSome
  let m := { m with
    requests := m.requests + 1
    totalBytes := m.totalBytes + res.bytes }
  let m :=
    if hasAssertionError then
      { m with
        assertionFailures := m.assertionFailures + 1
        assertionErrors :=
          syncMapInc m.assertionErrors (res.assertionError.getD "") }
    else m
  let m :=
    if isSuccess && !hasAssertionError then { m with success := m.success + 1 }
    else { m with fail := m.fail + 1 }
  -- Classify transport timeouts as status 1 for grouping (lines 186-191).
  let status := reclassifyStatus res
  let m := { m with statusCodes := syncMapInc m.statusCodes status }
  let m :=
    match res.error with
    | some e =>
      let sanitized := sanitize e.msg
      let r := addError m.errors m.uniqueErrorCount sanitized
      { m with errors := r.1, uniqueErrorCount := r.2 }
    | none => m
  let m :=
    if res.protocol ≠ "" then
      { m with protocolCounts := syncMapInc m.protocolCounts res.protocol }
    else m
  -- Record latency only for requests that received a response (line 223).
  let m :=
    if res.error.isNone then { m with hist := m.hist ++ [res.latencyUs] } else m
  -- Per-second tracking (lines 229-248).
  let m := getOrCreateBucket m second
  setBucketAt m second
    (bucketRecord res isSuccess hasAssertionError status (bucketAt m second))

/-- `Monitor.GetStats` (part_001 lines 252-256). -/
def GetStats (m : Monitor) : Int × Int × Int :=
  (m.requests, m.fail, m.assertionFailures)

/-! ## Snapshot (part_001 lines 260-431)

The report fields the claims are about.  Status keys are rendered by the
`Range` callback at lines 304-314: sentinel code 1 becomes "Timeout",
anything else is printed in decimal.  Latency quantiles are read from the
cumulative histogram, whose recorded population is the model list `hist`;
the quantile arithmetic itself is not needed by any claim and is left out
of the report model. -/

def statusKeyString (code : Int) : String :=
  if code = 1 then "Timeout" else toString code

/-- The per-second record built by the time-series loop of `Snapshot`
(part_001 lines 341-395): average latency in milliseconds is
`totalLatency / requests / 1000` (float arithmetic modelled exactly over
ℚ), while the quantiles come from the bucket histogram population. -/
structure SecondStatsModel where
  second : Int
  requests : Int
  success : Int
  failures : Int
  avgLatency : ℚ
  histPopulation : List Int
  statusCodes : List (String × Int)

def snapshotSecond (absSecond : Nat) (b : SecondBucket) : SecondStatsModel :=
  { second := (absSecond : Int) + 1
    requests := b.requests
    success := b.success
    failures := b.fail
    avgLatency :=
      if b.requests > 0 then (b.totalLatency : ℚ) / (b.requests : ℚ) / 1000
      else 0
    histPopulation := b.hist
    statusCodes := b.statusCodes.map (fun kv => (statusKeyString kv.1, kv.2)) }

structure ReportModel where
  totalRequests : Int
  successCount : Int
  failureCount : Int
  assertionFailures : Int
  successRate : ℚ
  totalBytes : Int
  histPopulation : List Int
  statusCodes : List (String × Int)
  errors : List (String × Int)
  assertionErrors : List (String × Int)
  protocolCounts : List (String × Int)
  timeSeriesData : List SecondStatsModel

/-- `Monitor.Snapshot` (part_001 lines 260-431), restricted to the fields
the claims mention.  Counter fields are direct atomic loads; the visible
time-series window starts at `total - cap + 1` clamped to 0 (lines
330-333). -/
def Snapshot (m : Monitor) : ReportModel :=
  let windowStart : Nat := m.bucketTotal - (m.bucketRingCap - 1)
  { totalRequests := m.requests
    successCount := m.success
    failureCount := m.fail
    assertionFailures := m.assertionFailures
    successRate :=
      if m.requests > 0 then (m.success : ℚ) / (m.requests : ℚ) * 100 else 0
    totalBytes := m.totalBytes
    histPopulation := m.hist
    statusCodes := m.statusCodes.map (fun kv => (statusKeyString kv.1, kv.2))
    errors := m.errors
    assertionErrors := m.assertionErrors
    protocolCounts := m.protocolCounts
    timeSeriesData :=
      (List.range (m.bucketTotal - windowStart)).map
        (fun i => snapshotSecond (windowStart + i) (bucketAt m (windowStart + i))) }

/-! ## The TUI result consumer (src/internal/tui/model.go lines 242-252)

`processResults` computes `isSuccess := m.config.SuccessCodes[res.Status]
&& res.Error == nil` and hands each result to `Monitor.Add`.
`successCodes` models the `map[int]bool` lookup (absent keys read false). -/

def processOneResult (successCodes : Int → Bool) (sanitize : String → String)
    (second : Nat) (res : Result) (m : Monitor) : Monitor :=
  MonitorAdd sanitize second res (successCodes res.status && res.error.isNone) m

/-- A whole consumer run: the monitor state after a sequence of `Add`
calls, each with its wall-clock second and the caller-computed
`isSuccess` flag. -/
def runAdds (sanitize : String → String) :
    List (Nat × Result × Bool) → Monitor → Monitor
  | [], m => m
  | (sec, res, ok) :: rest, m => runAdds sanitize rest (MonitorAdd sanitize sec res ok m)

/-! ## Circuit breaker (src/internal/circuitbreaker/breaker.go)

`ParseCondition` runs the Go regexp
`(?i)(errors?|error_rate|failures?)\s*([><=]+)\s*([\d.]+)(%)?`
with `FindStringSubmatch` (leftmost match, leftmost-first alternation)
and then `strconv.ParseFloat` on the numeric capture.  The scanner below
is a direct operational model of that regexp (the character classes of
consecutive pieces are pairwise disjoint, so after the metric word the
match is deterministic maximal-munch). -/

/-- Go regexp `\s`: `[\t\n\f\r ]`. -/
def isRegexSpace (c : Char) : Bool :=
  c = ' ' || c = '\t' || c = '\n' || c = '\x0c' || c = '\r'

def isOpChar (c : Char) : Bool := c = '>' || c = '<' || c = '='

def isNumChar (c : Char) : Bool := c.isDigit || c = '.'

/-- Case-insensitive literal match of `pat` at the head of `s`; returns
the rest of `s` on success. -/
def stripCaseless : List Char → List Char → Option (List Char)
  | [], s => some s
  | _ :: _, [] => none
  | p :: ps, c :: cs => if c.toLower = p then stripCaseless ps cs else none

/-- The `(%)?` capture test (`matches[4] == "%"`): set iff the text after
the number capture starts with a percent sign. -/
def pctOf (rest : List Char) : Bool :=
  match rest with
  | '%' :: _ => true
  | _ => false

/-- The tail of the pattern after the metric word:
`\s*([><=]+)\s*([\d.]+)(%)?`.  Returns (operator, number, percent). -/
def matchCondTail (s : List Char) : Option (String × String × Bool) :=
  let s1 := s.dropWhile isRegexSpace
  let op := s1.takeWhile isOpChar
  if op.isEmpty then none
  else
    let s2 := (s1.dropWhile isOpChar).dropWhile isRegexSpace
    let num := s2.takeWhile isNumChar
    if num.isEmpty then none
    else
      let rest := s2.dropWhile isNumChar
      some (String.mk op, String.mk num, pctOf rest)

/-- The alternation `(errors?|error_rate|failures?)` in leftmost-first
order with a greedy optional `s`: try `errors`, `error`, `error_rate`,
`failures`, `failure`. -/
def metricAlternatives : List String :=
  ["errors", "error", "error_rate", "failures", "failure"]

/-- Try the whole pattern at the current position. -/
def matchCondHere (s : List Char) : Option (String × String × String × Bool) :=
  (metricAlternatives.filterMap (fun w =>
    match stripCaseless w.toList s with
    | some rest =>
      match matchCondTail rest with
      | some (op, num, pct) => some (w, op, num, pct)
      | none => none
    | none => none)).head?

/-- `FindStringSubmatch`: scan left to right for the first position where
the pattern matches. -/
def findCondMatch : List Char → Option (String × String × String × Bool)
  | [] => matchCondHere []
  | c :: cs =>
    match matchCondHere (c :: cs) with
    | some r => some r
    | none => findCondMatch cs

/-- `strconv.ParseFloat` restricted to the capture class `[\d.]+`: it
succeeds iff the string has at least one digit and at most one dot, and
then denotes the obvious decimal (modelled exactly over ℚ). -/
def parseFloatDigits (s : String) : Option ℚ :=
  let cs := s.toList
  if (cs.filter (fun c => c = '.')).length ≤ 1 && (cs.any Char.isDigit) then
    let intPart := cs.takeWhile (fun c => c ≠ '.')
    let fracPart := (cs.dropWhile (fun c => c ≠ '.')).drop 1
    let digitsVal : List Char → ℚ := fun l =>
      l.foldl (fun acc c => acc * 10 + ((c.toNat - '0'.toNat : Nat) : ℚ)) 0
    some (digitsVal intPart + digitsVal fracPart / ((10 : ℚ) ^ fracPart.length))
  else none

/-- `strings.TrimSpace` (Unicode space trim; the inputs at stake are
ASCII, where the space set is `\t\n\v\f\r `). -/
def goTrimChar (c : Char) : Bool :=
  c = ' ' || c = '\t' || c = '\n' || c = '\x0b' || c = '\x0c' || c = '\r'

def goTrimSpace (s : String) : String :=
  String.mk (((s.toList.dropWhile goTrimChar).reverse.dropWhile goTrimChar).reverse)

/-- The parsed-condition fields written into `models.CircuitBreaker`. -/
structure CondFields where
  metric : String
  operator : String
  threshold : ℚ
  isPercent : Bool
deriving DecidableEq, Repr

/-- The metric-name normalisation switch (breaker.go lines 74-81). -/
def normalizeMetric (m : String) : String :=
  if m = "error" || m = "errors" then "errors"
  else if m = "failure" || m = "failures" then "failures"
  else if m = "error_rate" then "error_rate"
  else m

/-- `circuitbreaker.ParseCondition` (breaker.go lines 47-84).
`cfg.Metric = strings.ToLower(matches[1])` in the source; the scanner
above already returns the canonical lowercase alternative word as the
metric capture, on which `ToLower` is the identity, so the lowering step
is absorbed into the capture. -/
def ParseCondition (stopIf : String) : Except String CondFields :=
  let expr := goTrimSpace stopIf
  if expr = "" then Except.error "empty circuit breaker condition"
  else
    match findCondMatch expr.toList with
    | none => Except.error "invalid circuit breaker condition"
    | some (metric, op, num, pct) =>
      match parseFloatDigits num with
      | none => Except.error "invalid threshold value"
      | some threshold =>
        Except.ok
          { metric := normalizeMetric metric
            operator := op
            threshold := threshold
            isPercent := pct }

/-- The spec-side acceptance shape for the condition grammar, written as
a plain decomposition for comparison with the operational scanner: at
this position the text splits into a metric spelling that lowercases to
one of the five alternation words, an optional whitespace run, a
nonempty run of operator characters, an optional whitespace run and a
nonempty run of number characters (digits and dots). -/
def SpecCondMatch (l : List Char) : Prop :=
  ∃ (w : String) (mwChars ws1 oprun ws2 numrun post : List Char),
    w ∈ metricAlternatives ∧
    l = mwChars ++ (ws1 ++ (oprun ++ (ws2 ++ (numrun ++ post)))) ∧
    mwChars.map Char.toLower = w.toList ∧
    (∀ c ∈ ws1, isRegexSpace c = true) ∧
    oprun ≠ [] ∧ (∀ c ∈ oprun, isOpChar c = true) ∧
    (∀ c ∈ ws2, isRegexSpace c = true) ∧
    numrun ≠ [] ∧ (∀ c ∈ numrun, isNumChar c = true)

/-- The breaker condition config consumed by `Check` (`MinSamples`
included; float64 threshold arithmetic modelled exactly over ℚ). -/
structure CBConfig where
  metric : String
  operator : String
  threshold : ℚ
  isPercent : Bool
  minSamples : Int

/-- Mutable breaker state: the atomic `tripped` flag and the reason
string published under the mutex. -/
structure BreakerState where
  tripped : Bool
  reason : String
deriving DecidableEq, Repr

/-- Fixed-point decimal rendering used by the reason string (`%.1f` and
`%.3f` — Go rounds half to even). -/
def formatFixed (prec : Nat) (q : ℚ) : String :=
  let scale : ℚ := (10 : ℚ) ^ prec
  let x := q * scale
  let fl := ⌊x⌋
  let frac := x - (fl : ℚ)
  let n : Int :=
    if frac > 1/2 then fl + 1
    else if frac < 1/2 then fl
    else if fl % 2 = 0 then fl else fl + 1
  let sign := if n < 0 then "-" else ""
  let a := n.natAbs
  let whole := a / 10 ^ prec
  let fracDigits := a % 10 ^ prec
  let fracStr := toString fracDigits
  let padded := String.mk (List.replicate (prec - fracStr.length) '0') ++ fracStr
  if prec = 0 then sign ++ toString whole
  else sign ++ toString whole ++ "." ++ padded

/-- The reason string written on trip (breaker.go lines 139-145). -/
def tripReason (cfg : CBConfig) (currentValue : ℚ) : String :=
  if cfg.isPercent then
    "Circuit breaker tripped: " ++ cfg.metric ++ " (" ++
      formatFixed 1 currentValue ++ "%) exceeded threshold (" ++
      formatFixed 1 cfg.threshold ++ "%)"
  else
    "Circuit breaker tripped: " ++ cfg.metric ++ " (" ++
      formatFixed 3 currentValue ++ ") exceeded threshold (" ++
      formatFixed 3 cfg.threshold ++ ")"

/-- `Breaker.Check` (breaker.go lines 88-152) in the sequential semantics
of the single ticker goroutine: returns the boolean result and the new
breaker state. -/
def Check (cfg : CBConfig) (st : BreakerState)
    (totalRequests failures assertionFailures : Int) : Bool × BreakerState :=
  if st.tripped then (true, st)
  else if totalRequests < cfg.minSamples then (false, st)
  else
    let totalErrors := failures + assertionFailures
    let currentValue : Option ℚ :=
      if cfg.metric = "errors" || cfg.metric = "error_rate" then
        if cfg.isPercent then
          some ((totalErrors : ℚ) / (totalRequests : ℚ) * 100)
        else
          some ((totalErrors : ℚ) / (totalRequests : ℚ))
      else if cfg.metric = "failures" then some (totalErrors : ℚ)
      else none
    match currentValue with
    | none => (false, st)
    | some v =>
      let shouldTrip : Bool :=
        if cfg.operator = ">" then decide (v > cfg.threshold)
        else if cfg.operator = ">=" then decide (v ≥ cfg.threshold)
        else if cfg.operator = "<" then decide (v < cfg.threshold)
        else if cfg.operator = "<=" then decide (v ≤ cfg.threshold)
        else false
      if shouldTrip then (true, { tripped := true, reason := tripReason cfg v })
      else (false, st)

/-- `Breaker.Reason` (breaker.go lines 163-170). -/
def Reason (st : BreakerState) : String := st.reason

/-! ## Retry loop (src/internal/attacker/attacker.go)

`retryablePatterns` (lines 116-124) and `isRetryableError` (lines
127-138).  `strings.ToLower`/`strings.Contains` become character-level
lowering and sublist containment. -/

def retryablePatterns : List String :=
  ["timeout", "connection reset", "connection refused", "no such host",
   "eof", "i/o timeout", "tls handshake timeout"]

def lowerChars (s : String) : List Char := s.toList.map Char.toLower

/-- Does `pat` occur at the head of `s`? -/
def headMatches : List Char → List Char → Bool
  | [], _ => true
  | _ :: _, [] => false
  | p :: ps, c :: cs => p = c && headMatches ps cs

/-- `strings.Contains`: does `pat` occur contiguously anywhere in `s`? -/
def containsSub (pat : List Char) : List Char → Bool
  | [] => headMatches pat []
  | c :: cs => headMatches pat (c :: cs) || containsSub pat cs

def isRetryableError (err : Option GoErr) : Bool :=
  match err with
  | none => false
  | some e =>
    let errStr := lowerChars e.msg
    retryablePatterns.any (fun p => containsSub p.toList errStr)

/-- `DefaultRetryConfig` (attacker.go lines 38-41): `MaxRetries = 3`. -/
def defaultMaxRetries : Nat := 3

/-- The loop body of `executeCompiledStepWithRetry` (attacker.go lines
455-483), with the engine context never cancelled (cancellation only
cuts the loop short) and the backoff sleep erased (it does not affect
which attempts run).  `exec n` is the result of the n-th
`executeCompiledStep` call; `retriesLeft` starts at `MaxRetries` and
mirrors the `attempt < e.retry.MaxRetries` guard.  Returns the final
result and the number of attempts executed. -/
def retryLoop (exec : Nat → Result) : Nat → Nat → Result × Nat
  | attempt, retriesLeft =>
    let result := exec attempt
    if result.error.isNone || !isRetryableError result.error then
      (result, attempt + 1)
    else
      match retriesLeft with
      | 0 => (result, attempt + 1)
      | r + 1 => retryLoop exec (attempt + 1) r

/-- `executeCompiledStepWithRetry`: run from attempt 0 with `maxRetries`
retries allowed. -/
def executeCompiledStepWithRetry (maxRetries : Nat) (exec : Nat → Result) :
    Result × Nat :=
  retryLoop exec 0 maxRetries

/-! ## CSV feeder (src/unnamed/part_003)

`NewCSVFeeder` reads the file through `encoding/csv`'s `ReadAll` with
default settings, so `FieldsPerRecord = 0`: the first record fixes the
expected field count and any later record with a different count makes
`ReadAll` return `ErrFieldCount`.  The model therefore takes the grid of
cell rows as parsed from the file text and applies that enforcement;
character-level unquoting/line-splitting is orthogonal to every claim. -/

def csvReadAll (rows : List (List String)) : Except String (List (List String)) :=
  match rows with
  | [] => Except.ok []
  | r0 :: rest =>
    if rest.all (fun r => r.length = r0.length) then Except.ok (r0 :: rest)
    else Except.error "wrong number of fields"

/-- One record: Go builds `map[headers[i]] = row[i]` for `i <
len(headers)`, which is the zip of header and row (`zip` stops at the
shorter list, matching the `i < len(headers)` guard); a duplicate header
would overwrite, so lookups must take the rightmost binding. -/
def buildRecord (headers row : List String) : List (String × String) :=
  headers.zip row

def recordGet (record : List (String × String)) (k : String) : Option String :=
  (record.reverse.find? (fun kv => kv.1 = k)).map (fun kv => kv.2)

structure CSVFeeder where
  idx : Nat
  records : List (List (String × String))

/-- `attacker.NewCSVFeeder` (part_003 lines 22-67) applied to the cell
grid of a readable file (an unreadable file fails before this point). -/
def NewCSVFeeder (rows : List (List String)) : Except String CSVFeeder :=
  match csvReadAll rows with
  | Except.error _ => Except.error "failed to read csv data"
  | Except.ok rows =>
    if rows.length < 2 then
      Except.error "csv file must have a header and at least one row"
    else
      let headers := rows.headD []
      if headers.any (fun h => h = "") then
        Except.error "csv header contains empty field"
      else
        let records := (rows.drop 1).map (fun row => buildRecord headers row)
        if records.isEmpty then Except.error "csv file contains no data rows"
        else Except.ok { idx := 0, records := records }

/-- `CSVFeeder.Next` (part_003 lines 70-74): post-increment the counter,
return `records[counter % rowCount]`.  (The uint64 counter cannot wrap in
any realisable run and is modelled as an unbounded Nat.) -/
def Next (f : CSVFeeder) : List (String × String) × CSVFeeder :=
  ((f.records.get? (f.idx % f.records.length)).getD [],
   { f with idx := f.idx + 1 })

/-- The feeder state after `n` calls to `Next`. -/
def feederAfter (f : CSVFeeder) : Nat → CSVFeeder
  | 0 => f
  | n + 1 => (Next (feederAfter f n)).2

/-- The record returned by the i-th call (counting from 0). -/
def feederNth (f : CSVFeeder) (i : Nat) : List (String × String) :=
  (Next (feederAfter f i)).1

/-! ## Templates and variables (src/internal/attacker/template.go,
src/internal/attacker/variables.go)

The pseudo-random generators call `rand.IntN`, `rand.Shuffle`,
`uuid.New` and the wall clock; `GenEnv` supplies those sources as pure
oracles (`intN i b` is the value of the i-th `rand.IntN(b)` call of the
current branch, already reduced below its bound). -/

structure GenEnv where
  intN : Nat → Nat → Nat
  uuid : String
  nowUnix : Int
  nowUnixMilli : Int
  isoNow : String
  randomFloat6 : String  -- the %.6f rendering of rand.Float64()
  shuffle : List Char → List Char

def lettersLower : String := "abcdefghijklmnopqrstuvwxyz"
def lettersUpper : String := "ABCDEFGHIJKLMNOPQRSTUVWXYZ"
def digitChars : String := "0123456789"
def hexCharsLower : String := "0123456789abcdef"
def symbolChars : String := "!@#$%^&*"
def alphanum : String := lettersLower ++ lettersUpper ++ digitChars

def userAgentCount : Nat := 20
def nameChoices : List String :=
  ["Alice", "Bob", "Charlie", "David", "Eve", "Frank", "Grace", "Heidi"]
def countryCodes : List String :=
  ["US", "GB", "CA", "AU", "DE", "FR", "IT", "ES", "NL", "BE",
   "CH", "AT", "SE", "NO", "DK", "FI", "PL", "CZ", "RO", "HU",
   "EG", "SA", "AE", "QA", "KW", "BH", "OM", "JO", "LB", "IQ",
   "IN", "PK", "BD", "ID", "MY", "SG", "TH", "VN", "PH", "JP",
   "KR", "CN", "TW", "HK", "BR", "MX", "AR", "CL", "CO", "ZA"]

/-- `userAgents` is a fixed pool of 20 strings; only its size matters
here, so the pool is abstracted as indexed names. -/
def userAgentAt (k : Nat) : String := "userAgent" ++ toString k

def charAt (s : String) (k : Nat) : Char := s.toList.getD k ' '

/-- Two-digit zero-padded decimal (`%02d`). -/
def pad2 (n : Nat) : String :=
  if n < 10 then "0" ++ toString n else toString n

def hexDigitLower (n : Nat) : Char := charAt hexCharsLower (n % 16)
def hexDigitUpper (n : Nat) : Char := charAt "0123456789ABCDEF" (n % 16)

/-- `%02X` of a byte. -/
def hex2Upper (n : Nat) : String :=
  String.mk [hexDigitUpper (n / 16), hexDigitUpper (n % 16)]

/-- `%02x` of a byte. -/
def hex2Lower (n : Nat) : String :=
  String.mk [hexDigitLower (n / 16), hexDigitLower (n % 16)]

/-- The digit loop of `parsePositiveInt`: accumulate decimal digits,
bail out (to the default) on the first non-digit. -/
def parseDigitsAcc : List Char → Nat → Option Nat
  | [], n => some n
  | c :: cs, n =>
    if '0' ≤ c && c ≤ '9' then parseDigitsAcc cs (n * 10 + (c.toNat - '0'.toNat))
    else none

/-- `parsePositiveInt` (variables.go lines 418-434).  The Go `int`
accumulator is modelled as an unbounded Nat; its wrap-around would need
a 19-digit length suffix, which no sane template contains and no claim
evaluates. -/
def parsePositiveInt (s : String) (defaultVal maxVal : Nat) : Nat :=
  match parseDigitsAcc s.toList 0 with
  | none => defaultVal
  | some n => if n = 0 then defaultVal else if n > maxVal then maxVal else n

/-- `strings.HasSuffix`, via list suffix testing (`String.endsWith` does
not reduce in the kernel). -/
def goHasSuffix (s suf : String) : Bool :=
  List.isSuffixOf suf.toList s.toList

/-- Session maps are built by insertion; lookup is Go map lookup. -/
def sessionGet (session : List (String × String)) (name : String) : Option String :=
  (session.find? (fun kv => kv.1 = name)).map (fun kv => kv.2)

/-- String built from `count` draws out of a charset (the `make []byte`
loops of variables.go). -/
def drawString (env : GenEnv) (charset : String) (count : Nat) : String :=
  String.mk ((List.range count).map (fun i => charAt charset (env.intN i charset.length)))

/-- `VariableProcessor.getValue` (variables.go lines 311-415): session
lookup, then the built-in generator switch, then the three
prefix-parameterised generators, then the literal fallback. -/
def getValue (env : GenEnv) (name : String) (session : List (String × String)) : String :=
  match sessionGet session name with
  | some val => val
  | none =>
    if name = "uuid" then env.uuid
    else if name = "random_int" then toString (env.intN 0 100000)
    else if name = "timestamp" then toString env.nowUnix
    else if name = "timestamp_ms" then toString env.nowUnixMilli
    else if name = "random_email" then
      "user" ++ toString (env.intN 0 1000000) ++ "@example.com"
    else if name = "random_name" then
      (nameChoices.getD (env.intN 0 nameChoices.length) "") ++ " " ++
        toString (env.intN 1 1000)
    else if name = "random_phone" then "+1-555-01" ++ pad2 (env.intN 0 100)
    else if name = "random_domain" then drawString env alphanum 4 ++ ".example.com"
    else if name = "random_alphanum" then drawString env alphanum 10
    else if name = "random_bool" then
      if env.intN 0 2 = 0 then "false" else "true"
    else if name = "random_float" then env.randomFloat6
    else if name = "iso8601" then env.isoNow
    else if name = "random_ipv4" then
      toString (env.intN 0 256) ++ "." ++ toString (env.intN 1 256) ++ "." ++
        toString (env.intN 2 256) ++ "." ++ toString (env.intN 3 256)
    else if name = "random_user_agent" then userAgentAt (env.intN 0 userAgentCount)
    else if name = "random_mac" then
      String.intercalate ":"
        ((List.range 6).map (fun i => hex2Upper (env.intN i 256)))
    else if name = "random_color" then
      "#" ++ String.join ((List.range 3).map (fun i => hex2Lower (env.intN i 256)))
    else if name = "random_password" then
      let fixed := [charAt lettersUpper (env.intN 0 26),
                    charAt lettersLower (env.intN 1 26),
                    charAt digitChars (env.intN 2 10),
                    charAt symbolChars (env.intN 3 8)]
      let allChars := alphanum ++ symbolChars
      let rest := (List.range 8).map (fun i => charAt allChars (env.intN (4 + i) allChars.length))
      String.mk (env.shuffle (fixed ++ rest))
    else if name = "random_country" then countryCodes.getD (env.intN 0 countryCodes.length) ""
    else if name.startsWith "random_digits_" then
      drawString env digitChars
        (parsePositiveInt (name.drop "random_digits_".length) 10 20)
    else if name.startsWith "random_hex_" then
      drawString env hexCharsLower
        (parsePositiveInt (name.drop "random_hex_".length) 8 64)
    else if name.startsWith "random_alphanum_" then
      drawString env alphanum
        (parsePositiveInt (name.drop "random_alphanum_".length) 10 64)
    else "\x7b\x7b" ++ name ++ "\x7d\x7d"

/-- The names of the non-parameterised built-in generators handled by the
switch in `getValue`. -/
def builtinNames : List String :=
  ["uuid", "random_int", "timestamp", "timestamp_ms", "random_email",
   "random_name", "random_phone", "random_domain", "random_alphanum",
   "random_bool", "random_float", "iso8601", "random_ipv4",
   "random_user_agent", "random_mac", "random_color", "random_password",
   "random_country"]

/-- `parseArgs` (variables.go lines 271-309): comma-split outside double
quotes, trim each argument, then strip one pair of surrounding quotes. -/
def parseArgsLoop : List Char → Bool → List Char → List String → List String
  | [], _, current, args =>
    if current.isEmpty then args.reverse
    else args.reverse ++ [goTrimSpace (String.mk current.reverse)]
  | c :: cs, inQuote, current, args =>
    if c = '"' then parseArgsLoop cs (!inQuote) current args
    else if c = ',' && !inQuote then
      parseArgsLoop cs inQuote [] (goTrimSpace (String.mk current.reverse) :: args)
    else parseArgsLoop cs inQuote (c :: current) args

def stripQuotes (arg : String) : String :=
  if arg.startsWith "\"" && goHasSuffix arg "\"" && arg.length ≥ 2 then
    (arg.drop 1).dropRight 1
  else arg

def parseArgs (s : String) : List String :=
  (parseArgsLoop s.toList false [] []).map stripQuotes

/- Note on `parseArgs`: the Go rune loop drops the `'"'` characters
themselves (the quote case toggles `inQuote` without writing to the
buffer), and the final surrounding-quote strip runs on the already
quote-free arguments; the model mirrors both steps as written. -/

/-- A concrete oracle environment for evaluating the generators at fixed
inputs. -/
def constGenEnv : GenEnv :=
  { intN := fun _ _ => 0
    uuid := ""
    nowUnix := 0
    nowUnixMilli := 0
    isoNow := ""
    randomFloat6 := ""
    shuffle := id }

/-- `templatePart` (template.go lines 6-10). -/
structure TemplatePart where
  isLiteral : Bool
  literal : String
  ref : String
deriving DecidableEq, Repr

structure CompiledTemplate where
  parts : List TemplatePart
  hasVars : Bool
deriving DecidableEq, Repr

/-- The `VariableProcessor`: its function map (variables.go lines 74-206
install eleven named functions; every claim below is parametric in the
map's contents, which quantifies over the installed set). -/
structure VariableProcessor where
  funcMap : List (String × (List String → String))

def funcMapLookup (vp : VariableProcessor) (name : String) :
    Option (List String → String) :=
  (vp.funcMap.find? (fun kv => kv.1 = name)).map (fun kv => kv.2)

/-- First index of a character (`strings.IndexByte`). -/
def indexOfChar (s : String) (c : Char) : Option Nat :=
  s.toList.findIdx? (fun x => x = c)

/-- Rendering of one non-literal part inside `CompiledTemplate.Execute`
(template.go lines 83-97): function-call syntax dispatches through the
function map and unknown functions re-emit the literal placeholder;
otherwise the ref goes through `getValue`. -/
def execRef (vp : VariableProcessor) (env : GenEnv)
    (session : List (String × String)) (ref : String) : String :=
  match indexOfChar ref '(' with
  | some idx =>
    if goHasSuffix ref ")" then
      let funcName := goTrimSpace (String.mk (ref.toList.take idx))
      let argStr := String.mk ((ref.toList.drop (idx + 1)).dropLast)
      match funcMapLookup vp funcName with
      | some f => f (parseArgs argStr)
      | none => "\x7b\x7b" ++ ref ++ "\x7d\x7d"
    else getValue env ref session
  | none => getValue env ref session

/-- `CompiledTemplate.Execute` (template.go lines 60-101): the
`hasVars = false` fast path returns the lone literal; otherwise the
builder concatenates each part in order. -/
def Execute (vp : VariableProcessor) (env : GenEnv)
    (session : List (String × String)) (ct : CompiledTemplate) : String :=
  if !ct.hasVars then
    ((ct.parts.headD { isLiteral := true, literal := "", ref := "" }).literal)
  else
    String.join (ct.parts.map (fun p =>
      if p.isLiteral then p.literal else execRef vp env session p.ref))

/-! # Theorems -/

/-- Ring-buffer bookkeeping never touches the global counters. -/
theorem getOrCreateBucket_globals (m : Monitor) (s : Nat) :
    (getOrCreateBucket m s).requests = m.requests ∧
    (getOrCreateBucket m s).success = m.success ∧
    (getOrCreateBucket m s).fail = m.fail ∧
    (getOrCreateBucket m s).assertionFailures = m.assertionFailures ∧
    (getOrCreateBucket m s).statusCodes = m.statusCodes ∧
    (getOrCreateBucket m s).hist = m.hist := by
  simp [getOrCreateBucket]

theorem setBucketAt_globals (m : Monitor) (s : Nat) (b : SecondBucket) :
    (setBucketAt m s b).requests = m.requests ∧
    (setBucketAt m s b).success = m.success ∧
    (setBucketAt m s b).fail = m.fail ∧
    (setBucketAt m s b).assertionFailures = m.assertionFailures ∧
    (setBucketAt m s b).statusCodes = m.statusCodes ∧
    (setBucketAt m s b).hist = m.hist := by
  simp [setBucketAt]

/-- One `Add` call increments `requests` and exactly one of
`success`/`fail`, chosen by `isSuccess && !hasAssertionError`. -/
theorem monitorAdd_counters (san : String → String) (sec : Nat)
    (res : Result) (ok : Bool) (m : Monitor) :
    (MonitorAdd san sec res ok m).requests = m.requests + 1 ∧
    (MonitorAdd san sec res ok m).success =
      (if ok && res.assertionError.isNone then m.success + 1 else m.success) ∧
    (MonitorAdd san sec res ok m).fail =
      (if ok && res.assertionError.isNone then m.fail else m.fail + 1) := by
  cases hres : res.error <;>
    cases hae : res.assertionError <;>
    cases ok <;>
      simp [MonitorAdd, getOrCreateBucket, setBucketAt, hres, hae] <;>
      split_ifs <;> simp

/-- C1: a result is counted as a success by the statistics monitor iff its
HTTP status is in the configured `success_codes` set, it carries no
transport error and no assertion error (`processResults` computes
`isSuccess := SuccessCodes[res.Status] && res.Error == nil`, and
`Monitor.Add` counts a success iff `isSuccess && !hasAssertionError`);
every result failing any of the three conditions increments the failure
count instead, so exactly one of the two counters is incremented. -/
theorem processResults_success_iff
    (codes : Int → Bool) (san : String → String) (sec : Nat)
    (res : Result) (m : Monitor) :
    ((processOneResult codes san sec res m).success = m.success + 1 ∧
       (processOneResult codes san sec res m).fail = m.fail ↔
      codes res.status = true ∧ res.error = none ∧ res.assertionError = none) ∧
    ((processOneResult codes san sec res m).fail = m.fail + 1 ∧
       (processOneResult codes san sec res m).success = m.success ↔
      ¬(codes res.status = true ∧ res.error = none ∧ res.assertionError = none)) ∧
    ((processOneResult codes san sec res m).success +
        (processOneResult codes san sec res m).fail =
      m.success + m.fail + 1) := by
  have h := monitorAdd_counters san sec res (codes res.status && res.error.isNone) m
  unfold processOneResult
  rw [h.2.1, h.2.2]
  by_cases hc : codes res.status = true <;>
    cases he : res.error <;>
    cases ha : res.assertionError <;>
    simp [hc, he, ha] <;> omega

/-- The sum invariant `success + fail = requests` is preserved by any
sequence of `Add` calls starting from any monitor satisfying it. -/
theorem runAdds_sum_invariant (san : String → String)
    (adds : List (Nat × Result × Bool)) (m : Monitor)
    (h : m.success + m.fail = m.requests) :
    (runAdds san adds m).success + (runAdds san adds m).fail =
      (runAdds san adds m).requests := by
  induction adds generalizing m with
  | nil => exact h
  | cons a rest ih =>
    obtain ⟨sec, res, ok⟩ := a
    apply ih
    have hc := monitorAdd_counters san sec res ok m
    rw [hc.1, hc.2.1, hc.2.2]
    split_ifs <;> omega

theorem msetGet_syncMapInc_self [DecidableEq α] (m : MSet α) (k : α) :
    msetGet (syncMapInc m k) k = msetGet m k + 1 := by
  induction m with
  | nil => simp [syncMapInc, msetGet]
  | cons kv rest ih =>
    by_cases h : kv.1 = k <;> simp [syncMapInc, msetGet, h, ih]

theorem msetGet_syncMapInc_other [DecidableEq α] (m : MSet α) (k k' : α)
    (h : k' ≠ k) :
    msetGet (syncMapInc m k) k' = msetGet m k' := by
  induction m with
  | nil =>
    have hne : ¬k = k' := fun hh => h hh.symm
    simp [syncMapInc, msetGet, hne]
  | cons kv rest ih =>
    by_cases hk : kv.1 = k
    · subst hk
      have hne : ¬kv.1 = k' := fun hh => h hh.symm
      simp [syncMapInc, msetGet, hne]
    · simp [syncMapInc, msetGet, hk, ih]

theorem mem_syncMapInc_self [DecidableEq α] (m : MSet α) (k : α) :
    (k, msetGet m k + 1) ∈ syncMapInc m k := by
  induction m with
  | nil => simp [syncMapInc, msetGet]
  | cons kv rest ih =>
    by_cases h : kv.1 = k
    · subst h
      simp [syncMapInc, msetGet]
    · simp [syncMapInc, msetGet, h] at ih ⊢
      exact Or.inr ih

/-- The global status-code multiset after one `Add`: the incremented key
is the timeout-reclassified status. -/
theorem monitorAdd_statusCodes (san : String → String) (sec : Nat)
    (res : Result) (ok : Bool) (m : Monitor) :
    (MonitorAdd san sec res ok m).statusCodes =
      syncMapInc m.statusCodes
        (if res.status = 0 && res.error.isSome && isTimeout res.error then 1
         else res.status) := by
  cases hres : res.error <;>
    cases hae : res.assertionError <;>
    cases ok <;>
      simp [MonitorAdd, getOrCreateBucket, setBucketAt, reclassifyStatus,
        hres, hae] <;>
      split_ifs <;> simp_all

/-- C9: a status-0 result whose transport error is classified as a
timeout is counted in the status-code multiset under sentinel status 1,
which the snapshot renders as "Timeout"; a status-0 result with a
non-timeout transport error stays under key 0, so the multiset
distinguishes timeouts from other transport errors. -/
theorem timeout_status_reclassified (san : String → String) (sec : Nat)
    (res : Result) (ok : Bool) (m : Monitor) (e : GoErr)
    (h0 : res.status = 0) (he : res.error = some e) :
    (e.timeoutFlag = true →
      msetGet (MonitorAdd san sec res ok m).statusCodes 1 =
          msetGet m.statusCodes 1 + 1 ∧
        msetGet (MonitorAdd san sec res ok m).statusCodes 0 =
          msetGet m.statusCodes 0 ∧
        ("Timeout", msetGet m.statusCodes 1 + 1) ∈
          (Snapshot (MonitorAdd san sec res ok m)).statusCodes) ∧
    (e.timeoutFlag = false →
      msetGet (MonitorAdd san sec res ok m).statusCodes 0 =
          msetGet m.statusCodes 0 + 1 ∧
        msetGet (MonitorAdd san sec res ok m).statusCodes 1 =
          msetGet m.statusCodes 1) ∧
    statusKeyString 1 = "Timeout" ∧ statusKeyString 0 = "0" := by
  have hsc := monitorAdd_statusCodes san sec res ok m
  rw [h0, he] at hsc
  simp [isTimeout] at hsc
  refine ⟨fun hflag => ?_, fun hflag => ?_, rfl, rfl⟩
  · rw [hflag] at hsc
    simp at hsc
    refine ⟨by rw [hsc, msetGet_syncMapInc_self],
      by rw [hsc]; exact msetGet_syncMapInc_other _ _ _ (by decide), ?_⟩
    have hmem : ((1 : Int), msetGet m.statusCodes 1 + 1) ∈
        (MonitorAdd san sec res ok m).statusCodes := by
      rw [hsc]; exact mem_syncMapInc_self _ _
    have : (statusKeyString 1, msetGet m.statusCodes 1 + 1) ∈
        (Snapshot (MonitorAdd san sec res ok m)).statusCodes := by
      simp only [Snapshot]
      exact List.mem_map.mpr ⟨_, hmem, rfl⟩
    simpa [statusKeyString] using this
  · rw [hflag] at hsc
    simp at hsc
    exact ⟨by rw [hsc, msetGet_syncMapInc_self],
      by rw [hsc]; exact msetGet_syncMapInc_other _ _ _ (by decide)⟩

theorem advanceLoop_length (second ringCap : Nat) :
    ∀ (fuel bucketTotal : Nat) (ring : List SecondBucket),
      (advanceLoop second ringCap fuel bucketTotal ring).2.length = ring.length := by
  intro fuel
  induction fuel with
  | zero => intro bt ring; simp [advanceLoop]
  | succ f ih =>
    intro bt ring
    by_cases h : bt ≤ second <;> simp [advanceLoop, h, ih]

theorem getOrCreateBucket_ring_length (m : Monitor) (sec : Nat) :
    (getOrCreateBucket m sec).bucketRing.length = m.bucketRing.length := by
  simp [getOrCreateBucket, advanceLoop_length]

/-- After one `Add`, the addressed ring slot holds exactly the
`bucketRecord` update of the (possibly freshly reset) slot. -/
theorem monitorAdd_bucketAt (san : String → String) (sec : Nat)
    (res : Result) (ok : Bool) (m : Monitor)
    (hlen : sec % m.bucketRingCap < m.bucketRing.length) :
    bucketAt (MonitorAdd san sec res ok m) sec =
      bucketRecord res ok res.assertionError.isSome (reclassifyStatus res)
        (bucketAt (getOrCreateBucket m sec) sec) := by
  have hlen' : sec % m.bucketRingCap <
      ((advanceLoop sec m.bucketRingCap (sec + 1 - m.bucketTotal)
        m.bucketTotal m.bucketRing).2).length := by
    rw [advanceLoop_length]; exact hlen
  cases hres : res.error <;>
    cases hae : res.assertionError <;>
    cases ok <;>
      by_cases hp : res.protocol = "" <;>
        simp [MonitorAdd, getOrCreateBucket, setBucketAt, bucketAt,
          hres, hae, hp, List.getElem?_set_self hlen']

/-- The global histogram after one `Add`: only no-transport-error
results are recorded. -/
theorem monitorAdd_hist (san : String → String) (sec : Nat)
    (res : Result) (ok : Bool) (m : Monitor) :
    (MonitorAdd san sec res ok m).hist =
      if res.error.isNone then m.hist ++ [res.latencyUs] else m.hist := by
  cases hres : res.error <;>
    cases hae : res.assertionError <;>
    cases ok <;>
      by_cases hp : res.protocol = "" <;>
        simp [MonitorAdd, getOrCreateBucket, setBucketAt, hres, hae, hp]

/-- The `bucketRecord` update always adds the latency into the sum and
bumps `requests`, and appends to the bucket histogram only when the
result has no transport error. -/
theorem bucketRecord_fields (res : Result) (ok hae : Bool) (status : Int)
    (b : SecondBucket) :
    (bucketRecord res ok hae status b).totalLatency = b.totalLatency + res.latencyUs ∧
    (bucketRecord res ok hae status b).requests = b.requests + 1 ∧
    (bucketRecord res ok hae status b).hist =
      (if res.error.isNone then b.hist ++ [res.latencyUs] else b.hist) := by
  cases hres : res.error <;>
    simp [bucketRecord, hres] <;> split_ifs <;> simp

/-- C10: `Add` accumulates the latency of every result — transport errors
included — into the per-second bucket's `totalLatency` (which yields the
reported per-second average latency), while results with a transport
error are excluded from both the global and the per-second histograms;
so the per-second average and the histogram quantiles range over
different populations whenever transport errors occur. -/
theorem errored_latency_counted_in_avg_not_hist (san : String → String)
    (sec : Nat) (res : Result) (ok : Bool) (m : Monitor)
    (hlen : sec % m.bucketRingCap < m.bucketRing.length) :
    (bucketAt (MonitorAdd san sec res ok m) sec).totalLatency =
        (bucketAt (getOrCreateBucket m sec) sec).totalLatency + res.latencyUs ∧
    (bucketAt (MonitorAdd san sec res ok m) sec).requests =
        (bucketAt (getOrCreateBucket m sec) sec).requests + 1 ∧
    (∀ e, res.error = some e →
      (bucketAt (MonitorAdd san sec res ok m) sec).hist =
          (bucketAt (getOrCreateBucket m sec) sec).hist ∧
        (MonitorAdd san sec res ok m).hist = m.hist) ∧
    (res.error = none →
      (bucketAt (MonitorAdd san sec res ok m) sec).hist =
          (bucketAt (getOrCreateBucket m sec) sec).hist ++ [res.latencyUs] ∧
        (MonitorAdd san sec res ok m).hist = m.hist ++ [res.latencyUs]) ∧
    (0 ≤ (bucketAt (getOrCreateBucket m sec) sec).requests →
      (snapshotSecond sec (bucketAt (MonitorAdd san sec res ok m) sec)).avgLatency =
        ((bucketAt (getOrCreateBucket m sec) sec).totalLatency + res.latencyUs : ℚ) /
          (((bucketAt (getOrCreateBucket m sec) sec).requests : ℚ) + 1) / 1000) ∧
    (snapshotSecond sec (bucketAt (MonitorAdd san sec res ok m) sec)).histPopulation =
        (bucketAt (MonitorAdd san sec res ok m) sec).hist := by
  have hb := monitorAdd_bucketAt san sec res ok m hlen
  have hf := bucketRecord_fields res ok res.assertionError.isSome
    (reclassifyStatus res) (bucketAt (getOrCreateBucket m sec) sec)
  have hh := monitorAdd_hist san sec res ok m
  rw [hb] at *
  refine ⟨hf.1, hf.2.1, ?_, ?_, ?_, by simp [snapshotSecond]⟩
  · intro e he
    rw [hf.2.2, hh, he]
    simp
  · intro he
    rw [hf.2.2, hh, he]
    simp
  · intro hpos
    rw [snapshotSecond, hf.1, hf.2.1]
    simp only
    rw [if_pos (by omega)]
    push_cast
    ring

/-- C2: at every snapshot, the reported `success_count` plus the reported
`failure_count` equals the reported `total_requests`, for every sequence
of `Add` calls preceding the snapshot (all three report fields are direct
loads of the monitor counters, and each `Add` increments `requests` and
exactly one of `success`/`fail`). -/
theorem snapshot_success_plus_fail_eq_total (san : String → String)
    (adds : List (Nat × Result × Bool)) :
    (Snapshot (runAdds san adds NewMonitor)).successCount +
        (Snapshot (runAdds san adds NewMonitor)).failureCount =
      (Snapshot (runAdds san adds NewMonitor)).totalRequests := by
  have h := runAdds_sum_invariant san adds NewMonitor (by simp [NewMonitor])
  simpa [Snapshot] using h

/-- C3: once the breaker has tripped, every subsequent `Check` call
returns true regardless of its counter arguments and leaves the breaker
state — in particular the recorded reason string — unchanged, so the
breaker trips exactly once. -/
theorem check_after_trip_constant (cfg : CBConfig) (st : BreakerState)
    (h : st.tripped = true)
    (totalRequests failures assertionFailures : Int) :
    Check cfg st totalRequests failures assertionFailures = (true, st) ∧
    Reason (Check cfg st totalRequests failures assertionFailures).2 =
      Reason st := by
  constructor <;> simp [Check, Reason, h]

theorem retryLoop_eq_stop (exec : Nat → Result) (attempt r : Nat)
    (h : ((exec attempt).error.isNone || !isRetryableError (exec attempt).error) = true) :
    retryLoop exec attempt r = (exec attempt, attempt + 1) := by
  rw [retryLoop.eq_def]
  cases r <;> simp [h]

theorem retryLoop_eq_last (exec : Nat → Result) (attempt : Nat)
    (h : ((exec attempt).error.isNone || !isRetryableError (exec attempt).error) = false) :
    retryLoop exec attempt 0 = (exec attempt, attempt + 1) := by
  rw [retryLoop.eq_def]
  simp [h]

theorem retryLoop_eq_cont (exec : Nat → Result) (attempt r : Nat)
    (h : ((exec attempt).error.isNone || !isRetryableError (exec attempt).error) = false) :
    retryLoop exec attempt (r + 1) = retryLoop exec (attempt + 1) r := by
  rw [retryLoop.eq_def]
  simp [h]

theorem retryLoop_stop (exec : Nat → Result) (attempt r : Nat)
    (h : isRetryableError (exec attempt).error = false) :
    retryLoop exec attempt r = (exec attempt, attempt + 1) :=
  retryLoop_eq_stop exec attempt r (by simp [h])

theorem retryLoop_count_le (exec : Nat → Result) :
    ∀ (r attempt : Nat), (retryLoop exec attempt r).2 ≤ attempt + r + 1 := by
  intro r
  induction r with
  | zero =>
    intro attempt
    cases hg : ((exec attempt).error.isNone || !isRetryableError (exec attempt).error)
    · rw [retryLoop_eq_last exec attempt hg]
    · rw [retryLoop_eq_stop exec attempt 0 hg]
  | succ r ih =>
    intro attempt
    cases hg : ((exec attempt).error.isNone || !isRetryableError (exec attempt).error)
    · rw [retryLoop_eq_cont exec attempt r hg]
      have := ih (attempt + 1)
      omega
    · rw [retryLoop_eq_stop exec attempt (r + 1) hg]; omega

theorem retryLoop_retried_only_retryable (exec : Nat → Result) :
    ∀ (r attempt i : Nat), attempt ≤ i →
      i + 1 < (retryLoop exec attempt r).2 →
      isRetryableError (exec i).error = true := by
  intro r
  induction r with
  | zero =>
    intro attempt i hle hlt
    cases hg : ((exec attempt).error.isNone || !isRetryableError (exec attempt).error)
    · rw [retryLoop_eq_last exec attempt hg] at hlt
      omega
    · rw [retryLoop_eq_stop exec attempt 0 hg] at hlt
      omega
  | succ r ih =>
    intro attempt i hle hlt
    cases hg : ((exec attempt).error.isNone || !isRetryableError (exec attempt).error)
    · rw [retryLoop_eq_cont exec attempt r hg] at hlt
      rcases Nat.lt_or_ge attempt i with hlt' | hge
      · exact ih (attempt + 1) i hlt' hlt
      · have hai : attempt = i := Nat.le_antisymm hle hge
        subst hai
        revert hg
        cases hr : isRetryableError (exec attempt).error <;> simp [hr]
    · rw [retryLoop_eq_stop exec attempt (r + 1) hg] at hlt
      omega

/-- C5 (amended): a step attempt is re-tried only when it produced a
transport error whose lowercased message contains one of the retryable
substrings; a first attempt that is not retryable (no error, a
non-retryable transport error, an assertion error, or an HTTP error
status — the latter two leave `res.Error = nil`) returns immediately
after one attempt; and the total number of attempts never exceeds
`max_retries + 1` (one initial attempt plus up to `max_retries`
retries). -/
theorem retry_policy (maxRetries : Nat) (exec : Nat → Result) :
    (isRetryableError (exec 0).error = false →
      executeCompiledStepWithRetry maxRetries exec = (exec 0, 1)) ∧
    (executeCompiledStepWithRetry maxRetries exec).2 ≤ maxRetries + 1 ∧
    (∀ i : Nat, i + 1 < (executeCompiledStepWithRetry maxRetries exec).2 →
      isRetryableError (exec i).error = true) := by
  refine ⟨fun h => ?_, ?_, fun i hi => ?_⟩
  · exact retryLoop_stop exec 0 maxRetries h
  · simpa using retryLoop_count_le exec maxRetries 0
  · exact retryLoop_retried_only_retryable exec maxRetries 0 i (Nat.zero_le i) hi

/-- C5 counterexample: with the default `max_retries = 3` and a step
whose every attempt fails with a retryable transport error, the loop
executes 4 attempts, exceeding `max_retries` — refuting the claim that
the total number of attempts never exceeds `max_retries`. -/
theorem retry_attempts_exceed_maxRetries :
    (executeCompiledStepWithRetry defaultMaxRetries (fun _ =>
      { latencyUs := 0, status := 0, bytes := 0,
        error := some { msg := "dial tcp: connection refused", timeoutFlag := false },
        assertionError := none, protocol := "" })).2 = 4 ∧
    ¬ ((executeCompiledStepWithRetry defaultMaxRetries (fun _ =>
      { latencyUs := 0, status := 0, bytes := 0,
        error := some { msg := "dial tcp: connection refused", timeoutFlag := false },
        assertionError := none, protocol := "" })).2 ≤ defaultMaxRetries) := by
  constructor <;> decide

theorem feederAfter_state (f : CSVFeeder) (n : Nat) :
    feederAfter f n = { idx := f.idx + n, records := f.records } := by
  induction n with
  | zero => simp [feederAfter]
  | succ n ih => simp [feederAfter, ih, Next, Nat.add_assoc]

theorem countP_eq_one_range (L j : Nat) (hj : j < L) :
    (List.range L).countP (fun i => decide (i = j)) = 1 := by
  induction L with
  | zero => omega
  | succ L ih =>
    rw [List.range_succ, List.countP_append]
    rcases Nat.lt_or_ge j L with hlt | hge
    · have hne : ¬(L = j) := by omega
      simp [ih hlt, hne]
    · have hje : j = L := by omega
      subst hje
      have hz : (List.range j).countP (fun i => decide (i = j)) = 0 := by
        rw [List.countP_eq_zero]
        intro a ha
        simp only [List.mem_range] at ha
        simp
        omega
      simp [hz]

theorem countP_mod_range (L j : Nat) (hj : j < L) :
    ∀ k : Nat, (List.range (k * L)).countP (fun i => decide (i % L = j)) = k := by
  intro k
  induction k with
  | zero => simp
  | succ k ih =>
    have hsplit : (k + 1) * L = k * L + L := by ring
    rw [hsplit, List.range_add, List.countP_append, ih, List.countP_map]
    have hcongr : (List.range L).countP
        ((fun i => decide (i % L = j)) ∘ (fun x => k * L + x)) =
        (List.range L).countP (fun i => decide (i = j)) := by
      apply List.countP_congr
      intro a ha
      simp only [List.mem_range] at ha
      simp only [Function.comp]
      have : (k * L + a) % L = a := by
        rw [Nat.mul_comm, Nat.mul_add_mod]
        exact Nat.mod_eq_of_lt ha
      simp [this]
    rw [hcongr, countP_eq_one_range L j hj]

/-- C6: starting from a fresh feeder (counter 0), the i-th `Next` call
(counting from 0, in a single-threaded sequence) returns data row
`i mod rowCount`; hence among the first `k × rowCount` calls each row
index is hit exactly `k` times, and within the first `rowCount` calls
every row is returned at least once. -/
theorem csvFeeder_roundRobin (f : CSVFeeder) (h0 : f.idx = 0) :
    (∀ i : Nat, feederNth f i =
      (f.records.get? (i % f.records.length)).getD []) ∧
    (∀ k j : Nat, j < f.records.length →
      (List.range (k * f.records.length)).countP
        (fun i => decide (i % f.records.length = j)) = k) ∧
    (∀ j : Nat, j < f.records.length →
      ∃ i : Nat, i < f.records.length ∧
        feederNth f i = (f.records.get? j).getD []) := by
  have hnth : ∀ i : Nat, feederNth f i =
      (f.records.get? (i % f.records.length)).getD [] := by
    intro i
    rw [feederNth, feederAfter_state, h0]
    simp [Next]
  refine ⟨hnth, fun k j hj => countP_mod_range _ j hj k, fun j hj => ?_⟩
  refine ⟨j, hj, ?_⟩
  rw [hnth j, Nat.mod_eq_of_lt hj]

/-- C7 counterexample: a readable two-row file whose data row has fewer
cells than the header (no empty header cell) is rejected by the
constructor — `encoding/csv.ReadAll` enforces a uniform field count —
contradicting the claim that such a file is accepted. -/
theorem newCSVFeeder_ragged_rejected :
    NewCSVFeeder [["a", "b"], ["1"]] =
      Except.error "failed to read csv data" := by
  rfl

/-- `NewCSVFeeder` on a ragged grid: the CSV reader rejects it before the
record-building loop runs. -/
theorem newCSVFeeder_ragged_eq (r0 : List String) (rest : List (List String))
    (h : rest.all (fun r => r.length = r0.length) = false) :
    NewCSVFeeder (r0 :: rest) = Except.error "failed to read csv data" := by
  simp [NewCSVFeeder, csvReadAll, h]

theorem newCSVFeeder_uniform_eq (r0 : List String) (rest : List (List String))
    (h : rest.all (fun r => r.length = r0.length) = true) :
    NewCSVFeeder (r0 :: rest) =
      (if (r0 :: rest).length < 2 then
        Except.error "csv file must have a header and at least one row"
      else if r0.any (fun c => c = "") then
        Except.error "csv header contains empty field"
      else if (rest.map (fun row => buildRecord r0 row)).isEmpty then
        Except.error "csv file contains no data rows"
      else Except.ok { idx := 0, records := rest.map (fun row => buildRecord r0 row) }) := by
  simp [NewCSVFeeder, csvReadAll, h, List.headD]

/-- C7 (amended): the constructor succeeds exactly when every row has the
same number of cells as the header, there are at least two rows (header
plus one data row), and no header cell is empty; ragged rows are rejected
by the CSV reader before the record-building loop runs, so the
`i < len(headers)` truncation guard never drops cells.  On success the
records are the header-row zips and the counter starts at 0. -/
theorem newCSVFeeder_ok_characterisation (rows : List (List String)) :
    ((NewCSVFeeder rows).isOk = true ↔
      (2 ≤ rows.length ∧
        (∀ r ∈ rows, r.length = (rows.headD []).length) ∧
        (∀ c ∈ rows.headD [], c ≠ ""))) ∧
    (∀ f : CSVFeeder, NewCSVFeeder rows = Except.ok f →
      f.records = (rows.drop 1).map (fun row => buildRecord (rows.headD []) row) ∧
        f.idx = 0) := by
  cases rows with
  | nil =>
    refine ⟨?_, ?_⟩
    · simp [NewCSVFeeder, csvReadAll, Except.isOk, Except.toBool]
    · intro f hf
      simp [NewCSVFeeder, csvReadAll] at hf
  | cons r0 rest =>
    by_cases hall : ∀ r ∈ rest, r.length = r0.length
    · have hallb : rest.all (fun r => r.length = r0.length) = true := by
        rw [List.all_eq_true]
        intro r hr
        simpa using hall r hr
      rw [newCSVFeeder_uniform_eq r0 rest hallb] at *
      by_cases hlen2 : (r0 :: rest).length < 2
      · rw [if_pos hlen2]
        have h2 : ¬ 2 ≤ (r0 :: rest).length := by omega
        refine ⟨?_, ?_⟩
        · simp [Except.isOk, Except.toBool, h2]
          intro h1 _
          exfalso
          simp only [List.length_cons] at hlen2
          omega
        · intro f hf
          cases hf
      · rw [if_neg hlen2]
        by_cases hhdr : ∃ c ∈ r0, c = ""
        · have hany : r0.any (fun c => c = "") = true := by
            rcases hhdr with ⟨c, hmem, hc⟩
            exact List.any_eq_true.mpr ⟨c, hmem, by simp [hc]⟩
          rw [if_pos hany]
          refine ⟨?_, ?_⟩
          · simp only [Except.isOk, Except.toBool, List.headD]
            constructor
            · intro h
              cases h
            · rintro ⟨-, -, hno⟩
              rcases hhdr with ⟨c, hmem, hc⟩
              exact absurd hc (hno c hmem)
          · intro f hf
            cases hf
        · have hany : r0.any (fun c => c = "") = false := by
            rw [List.any_eq_false]
            intro c hmem
            simp only [decide_eq_true_eq]
            exact fun hc => hhdr ⟨c, hmem, hc⟩
          rw [if_neg (by rw [hany]; exact Bool.false_ne_true)]
          have hne : rest ≠ [] := by
            intro he
            subst he
            simp at hlen2
          have hrecs : ((rest.map (fun row => buildRecord r0 row)).isEmpty) = false := by
            cases rest
            · exact absurd rfl hne
            · rfl
          rw [if_neg (by rw [hrecs]; exact Bool.false_ne_true)]
          refine ⟨?_, ?_⟩
          · simp only [Except.isOk, Except.toBool, List.headD]
            constructor
            · intro _
              refine ⟨by simpa using Nat.not_lt.mp hlen2, ?_, ?_⟩
              · intro r hr
                rcases List.mem_cons.mp hr with h1 | h2
                · rw [h1]
                · exact hall r h2
              · intro c hmem hc
                exact hhdr ⟨c, hmem, hc⟩
            · intro _
              trivial
          · intro f hf
            cases hf
            simp
    · have hallb : rest.all (fun r => r.length = r0.length) = false := by
        rw [List.all_eq_false]
        rcases (by simpa using hall : ∃ r ∈ rest, ¬ r.length = r0.length)
          with ⟨r, hmem, hne⟩
        exact ⟨r, hmem, by simpa using hne⟩
      rw [newCSVFeeder_ragged_eq r0 rest hallb]
      refine ⟨?_, ?_⟩
      · simp only [Except.isOk, Except.toBool, List.headD]
        constructor
        · intro h
          cases h
        · rintro ⟨-, huni, -⟩
          exact absurd (fun r hr => huni r (List.mem_cons_of_mem r0 hr)) hall
      · intro f hf
        cases hf

/-- C8: a reference name that is not a session key, not a built-in
generator, and not matched by one of the three parameterised-generator
name patterns resolves to the literal `\x7b\x7bname\x7d\x7d` placeholder;
likewise, executing a template whose function-call reference names a
function absent from the function map emits the original
`\x7b\x7bref\x7d\x7d` text unchanged. -/
theorem unknown_refs_round_trip_to_literal :
    (∀ (env : GenEnv) (session : List (String × String)) (name : String),
      sessionGet session name = none →
      name ∉ builtinNames →
      name.startsWith "random_digits_" = false →
      name.startsWith "random_hex_" = false →
      name.startsWith "random_alphanum_" = false →
      getValue env name session = "\x7b\x7b" ++ name ++ "\x7d\x7d") ∧
    (∀ (vp : VariableProcessor) (env : GenEnv)
       (session : List (String × String)) (ref : String) (idx : Nat),
      indexOfChar ref '(' = some idx →
      goHasSuffix ref ")" = true →
      funcMapLookup vp (goTrimSpace (String.mk (ref.toList.take idx))) = none →
      Execute vp env session
        { parts := [{ isLiteral := false, literal := "", ref := ref }],
          hasVars := true } =
        "\x7b\x7b" ++ ref ++ "\x7d\x7d") := by
  constructor
  · intro env session name hsess hb hd hh ha
    simp only [builtinNames, List.mem_cons, List.not_mem_nil, or_false,
      not_or] at hb
    obtain ⟨h1, h2, h3, h4, h5, h6, h7, h8, h9, h10, h11, h12, h13, h14,
      h15, h16, h17, h18⟩ := hb
    simp [getValue, hsess, h1, h2, h3, h4, h5, h6, h7, h8, h9, h10, h11,
      h12, h13, h14, h15, h16, h17, h18, hd, hh, ha]
  · intro vp env session ref idx hidx hsuf hlookup
    simp only [String.toList] at hlookup
    simp [Execute, execRef, hidx, hsuf, hlookup, String.join]

theorem takeWhile_append_all (p : Char → Bool) (l1 l2 : List Char)
    (h : ∀ c ∈ l1, p c = true) :
    (l1 ++ l2).takeWhile p = l1 ++ l2.takeWhile p := by
  induction l1 with
  | nil => simp
  | cons c t ih =>
    have hc := h c (List.mem_cons_self c t)
    simp only [List.cons_append, List.takeWhile_cons, hc, if_true]
    rw [ih (fun x hx => h x (List.mem_cons_of_mem c hx))]

theorem dropWhile_append_all (p : Char → Bool) (l1 l2 : List Char)
    (h : ∀ c ∈ l1, p c = true) :
    (l1 ++ l2).dropWhile p = l2.dropWhile p := by
  induction l1 with
  | nil => simp
  | cons c t ih =>
    have hc := h c (List.mem_cons_self c t)
    simp only [List.cons_append, List.dropWhile_cons, hc, if_true]
    exact ih (fun x hx => h x (List.mem_cons_of_mem c hx))

theorem opChar_not_space (c : Char) (h : isOpChar c = true) :
    isRegexSpace c = false := by
  simp only [isOpChar, Bool.or_eq_true, decide_eq_true_eq] at h
  rcases h with (h | h) | h <;> subst h <;> decide

theorem digit_not_space (c : Char) (h : c.isDigit = true) :
    isRegexSpace c = false := by
  simp only [Char.isDigit] at h
  simp only [isRegexSpace, Bool.or_eq_false_iff, decide_eq_false_iff_not]
  refine ⟨⟨⟨⟨?_, ?_⟩, ?_⟩, ?_⟩, ?_⟩ <;> rintro rfl <;> simp at h

theorem digit_isNumChar (c : Char) (h : c.isDigit = true) :
    isNumChar c = true := by
  simp [isNumChar, h]

theorem digit_ne_dot (c : Char) (h : c.isDigit = true) : ¬ c = '.' := by
  rintro rfl
  simp [Char.isDigit] at h

theorem stripCaseless_shift (pat1 : List Char) :
    ∀ (pat2 rest : List Char), (∀ c ∈ pat1, c.toLower = c) →
      stripCaseless (pat1 ++ pat2) (pat1 ++ rest) = stripCaseless pat2 rest := by
  induction pat1 with
  | nil => intro pat2 rest _; rfl
  | cons c t ih =>
    intro pat2 rest h
    have hc := h c (List.mem_cons_self c t)
    simp only [List.cons_append, stripCaseless, hc, if_pos rfl]
    exact ih pat2 rest (fun x hx => h x (List.mem_cons_of_mem c hx))

theorem stripCaseless_self (pat rest : List Char)
    (h : ∀ c ∈ pat, c.toLower = c) :
    stripCaseless pat (pat ++ rest) = some rest := by
  have := stripCaseless_shift pat [] rest h
  simpa using this

theorem space_not_op (c : Char) (h : isRegexSpace c = true) :
    isOpChar c = false := by
  simp only [isRegexSpace, Bool.or_eq_true, decide_eq_true_eq] at h
  rcases h with (((h | h) | h) | h) | h <;> subst h <;> decide

theorem numChar_not_op (c : Char) (h : isNumChar c = true) :
    isOpChar c = false := by
  simp only [isNumChar, Bool.or_eq_true, decide_eq_true_eq] at h
  rcases h with h | h
  · simp only [Char.isDigit] at h
    simp only [isOpChar, Bool.or_eq_false_iff, decide_eq_false_iff_not]
    refine ⟨⟨?_, ?_⟩, ?_⟩ <;> rintro rfl <;> simp at h
  · subst h
    decide

theorem numChar_not_space (c : Char) (h : isNumChar c = true) :
    isRegexSpace c = false := by
  simp only [isNumChar, Bool.or_eq_true, decide_eq_true_eq] at h
  rcases h with h | h
  · exact digit_not_space c h
  · subst h
    decide

/-- No whitespace or operator character lowercases to the letter s. -/
theorem spaceOrOp_not_s (c : Char)
    (h : isRegexSpace c = true ∨ isOpChar c = true) : ¬ c.toLower = 's' := by
  rcases h with h | h
  · simp only [isRegexSpace, Bool.or_eq_true, decide_eq_true_eq] at h
    rcases h with (((h | h) | h) | h) | h <;> subst h <;> decide
  · simp only [isOpChar, Bool.or_eq_true, decide_eq_true_eq] at h
    rcases h with (h | h) | h <;> subst h <;> decide

/-- The first character after the metric word is either whitespace or an
operator character. -/
theorem wsOp_head_fact (ws1 op rest : List Char)
    (hws1 : ∀ c ∈ ws1, isRegexSpace c = true)
    (hop : op ≠ []) (hopc : ∀ c ∈ op, isOpChar c = true) :
    ∀ c, (ws1 ++ (op ++ rest)).head? = some c →
      (isRegexSpace c = true ∨ isOpChar c = true) := by
  intro c hc
  cases ws1 with
  | cons w t =>
    simp only [List.cons_append, List.head?_cons, Option.some.injEq] at hc
    subst hc
    exact Or.inl (hws1 w (List.mem_cons_self w t))
  | nil =>
    cases op with
    | nil => exact absurd rfl hop
    | cons o ot =>
      simp only [List.nil_append, List.cons_append, List.head?_cons,
        Option.some.injEq] at hc
      subst hc
      exact Or.inr (hopc o (List.mem_cons_self o ot))

/-- A one-letter case-insensitive literal fails on any text whose head
does not lowercase to it. -/
theorem stripCaseless_single_none (p : Char) (R : List Char)
    (h : ∀ c, R.head? = some c → ¬ c.toLower = p) :
    stripCaseless [p] R = none := by
  cases R with
  | nil => rfl
  | cons c cs =>
    have hc := h c rfl
    simp only [stripCaseless, if_neg hc]

/-- The deterministic part of the condition regexp: on
`ws1 op ws2 num post` with (possibly empty) whitespace runs, a nonempty
run of operator characters, a nonempty run of number characters and a
tail that does not extend the number, the tail matcher captures exactly
those runs and reads the percent flag off the tail. -/
theorem matchCondTail_build (ws1 op ws2 num post : List Char)
    (hws1 : ∀ c ∈ ws1, isRegexSpace c = true)
    (hop : op ≠ []) (hopc : ∀ c ∈ op, isOpChar c = true)
    (hws2 : ∀ c ∈ ws2, isRegexSpace c = true)
    (hnum : num ≠ []) (hnumc : ∀ c ∈ num, isNumChar c = true)
    (hpost : ∀ c, post.head? = some c → isNumChar c = false) :
    matchCondTail (ws1 ++ (op ++ (ws2 ++ (num ++ post)))) =
      some (String.mk op, String.mk num, pctOf post) := by
  obtain ⟨o, ot, rfl⟩ : ∃ o ot, op = o :: ot := by
    cases op with
    | nil => exact absurd rfl hop
    | cons o ot => exact ⟨o, ot, rfl⟩
  obtain ⟨d, dt, rfl⟩ : ∃ d dt, num = d :: dt := by
    cases num with
    | nil => exact absurd rfl hnum
    | cons d dt => exact ⟨d, dt, rfl⟩
  have hopns : isRegexSpace o = false :=
    opChar_not_space o (hopc o (List.mem_cons_self o ot))
  have hdop : isOpChar d = false :=
    numChar_not_op d (hnumc d (List.mem_cons_self d dt))
  have hdns : isRegexSpace d = false :=
    numChar_not_space d (hnumc d (List.mem_cons_self d dt))
  have hs1 : (ws1 ++ ((o :: ot) ++ (ws2 ++ ((d :: dt) ++ post)))).dropWhile
      isRegexSpace = (o :: ot) ++ (ws2 ++ ((d :: dt) ++ post)) := by
    rw [dropWhile_append_all _ _ _ hws1]
    simp [List.dropWhile_cons, hopns]
  rw [matchCondTail, hs1]
  have htke : ((o :: ot) ++ (ws2 ++ ((d :: dt) ++ post))).takeWhile isOpChar =
      o :: ot := by
    rw [takeWhile_append_all _ _ _ hopc]
    have hz : (ws2 ++ ((d :: dt) ++ post)).takeWhile isOpChar = [] := by
      cases ws2 with
      | nil => simp [List.takeWhile_cons, hdop]
      | cons w wt =>
        have hwop : isOpChar w = false :=
          space_not_op w (hws2 w (List.mem_cons_self w wt))
        simp [List.takeWhile_cons, hwop]
    rw [hz, List.append_nil]
  have hdpe : ((o :: ot) ++ (ws2 ++ ((d :: dt) ++ post))).dropWhile isOpChar =
      ws2 ++ ((d :: dt) ++ post) := by
    rw [dropWhile_append_all _ _ _ hopc]
    cases ws2 with
    | nil => simp [List.dropWhile_cons, hdop]
    | cons w wt =>
      have hwop : isOpChar w = false :=
        space_not_op w (hws2 w (List.mem_cons_self w wt))
      simp [List.dropWhile_cons, hwop]
  rw [htke, hdpe]
  simp only [List.isEmpty_cons, Bool.false_eq_true, if_false]
  have hs2 : (ws2 ++ ((d :: dt) ++ post)).dropWhile isRegexSpace =
      (d :: dt) ++ post := by
    rw [dropWhile_append_all _ _ _ hws2]
    simp [List.dropWhile_cons, hdns]
  rw [hs2]
  have htkn : ((d :: dt) ++ post).takeWhile isNumChar = d :: dt := by
    rw [takeWhile_append_all _ _ _ hnumc]
    have hz : post.takeWhile isNumChar = [] := by
      cases post with
      | nil => rfl
      | cons r rt =>
        have hrn : isNumChar r = false := hpost r rfl
        simp [List.takeWhile_cons, hrn]
    rw [hz, List.append_nil]
  have hdpn : ((d :: dt) ++ post).dropWhile isNumChar = post := by
    rw [dropWhile_append_all _ _ _ hnumc]
    cases post with
    | nil => rfl
    | cons r rt =>
      have hrn : isNumChar r = false := hpost r rfl
      simp [List.dropWhile_cons, hrn]
  rw [htkn, hdpn]
  simp only [List.isEmpty_cons, Bool.false_eq_true, if_false]

/-- `ParseFloat` on an all-digit capture yields the decimal value. -/
theorem parseFloatDigits_digits (num : List Char) (hnum : num ≠ [])
    (hdig : ∀ c ∈ num, c.isDigit = true) :
    parseFloatDigits (String.mk num) =
      some (num.foldl (fun acc c => acc * 10 + ((c.toNat - '0'.toNat : Nat) : ℚ)) 0) := by
  have hfilter : num.filter (fun c => decide (c = '.')) = [] := by
    rw [List.filter_eq_nil_iff]
    intro c hc
    simpa using digit_ne_dot c (hdig c hc)
  have hany : num.any Char.isDigit = true := by
    obtain ⟨d, dt, rfl⟩ : ∃ d dt, num = d :: dt := by
      cases num with
      | nil => exact absurd rfl hnum
      | cons d dt => exact ⟨d, dt, rfl⟩
    exact List.any_eq_true.mpr ⟨d, List.mem_cons_self d dt, hdig d (List.mem_cons_self d dt)⟩
  have htake : num.takeWhile (fun c => decide (c ≠ '.')) = num := by
    rw [List.takeWhile_eq_self_iff]
    intro c hc
    simpa using digit_ne_dot c (hdig c hc)
  have hdrop : num.dropWhile (fun c => decide (c ≠ '.')) = [] := by
    rw [List.dropWhile_eq_nil_iff]
    intro c hc
    simpa using digit_ne_dot c (hdig c hc)
  simp only [parseFloatDigits, String.toList, String.mk, hfilter, hany,
    htake, hdrop]
  simp

/-- Whatever the tail matcher captures as the operator is a nonempty run
of operator characters (and the number a nonempty `[\d.]` run). -/
theorem matchCondTail_spec (s : List Char) (op num : String) (pct : Bool)
    (h : matchCondTail s = some (op, num, pct)) :
    op ≠ "" ∧ (∀ c ∈ op.toList, isOpChar c = true) ∧
      num ≠ "" ∧ (∀ c ∈ num.toList, isNumChar c = true) := by
  rw [matchCondTail] at h
  by_cases he : ((s.dropWhile isRegexSpace).takeWhile isOpChar).isEmpty = true
  · rw [if_pos he] at h
    cases h
  · rw [if_neg he] at h
    set s2 := ((s.dropWhile isRegexSpace).dropWhile isOpChar).dropWhile isRegexSpace
      with hs2
    by_cases hn : (s2.takeWhile isNumChar).isEmpty = true
    · rw [if_pos hn] at h
      cases h
    · rw [if_neg hn] at h
      cases h
      refine ⟨?_, ?_, ?_, ?_⟩
      · intro hcon
        apply he
        have : (s.dropWhile isRegexSpace).takeWhile isOpChar = [] := by
          have := congrArg String.toList hcon
          simpa [String.toList, String.mk] using this
        simp [this]
      · intro c hc
        simp only [String.toList, String.mk] at hc
        exact List.mem_takeWhile_imp hc
      · intro hcon
        apply hn
        have : s2.takeWhile isNumChar = [] := by
          have := congrArg String.toList hcon
          simpa [String.toList, String.mk] using this
        simp [this]
      · intro c hc
        simp only [String.toList, String.mk] at hc
        exact List.mem_takeWhile_imp hc

theorem matchCondHere_spec (s : List Char) (m op num : String) (pct : Bool)
    (h : matchCondHere s = some (m, op, num, pct)) :
    m ∈ metricAlternatives ∧ op ≠ "" ∧ (∀ c ∈ op.toList, isOpChar c = true) := by
  rw [matchCondHere] at h
  have hmem := List.mem_of_mem_head? h
  rcases List.mem_filterMap.mp hmem with ⟨w, hw, hf⟩
  revert hf
  rcases stripCaseless w.toList s with _ | rest
  · intro hf
    exact Option.noConfusion hf
  · dsimp only
    rcases htail : matchCondTail rest with _ | ⟨o2, n2, p2⟩
    · intro hf
      exact Option.noConfusion hf
    · intro hf
      have hf' : (w, o2, n2, p2) = (m, op, num, pct) := Option.some.inj hf
      simp only [Prod.mk.injEq] at hf'
      obtain ⟨rfl, rfl, rfl, rfl⟩ := hf'
      exact ⟨hw, (matchCondTail_spec rest _ _ _ htail).1,
        (matchCondTail_spec rest _ _ _ htail).2.1⟩

theorem findCondMatch_spec (s : List Char) (m op num : String) (pct : Bool)
    (h : findCondMatch s = some (m, op, num, pct)) :
    m ∈ metricAlternatives ∧ op ≠ "" ∧ (∀ c ∈ op.toList, isOpChar c = true) := by
  induction s with
  | nil =>
    rw [findCondMatch] at h
    exact matchCondHere_spec [] m op num pct h
  | cons c cs ih =>
    rw [findCondMatch] at h
    rcases hh : matchCondHere (c :: cs) with _ | r
    · rw [hh] at h
      exact ih h
    · rw [hh] at h
      cases h
      exact matchCondHere_spec (c :: cs) m op num pct hh

theorem digit_not_trim (c : Char) (h : c.isDigit = true) :
    goTrimChar c = false := by
  simp only [Char.isDigit] at h
  simp only [goTrimChar, Bool.or_eq_false_iff, decide_eq_false_iff_not]
  refine ⟨⟨⟨⟨⟨?_, ?_⟩, ?_⟩, ?_⟩, ?_⟩, ?_⟩ <;> rintro rfl <;> simp at h

theorem stripCaseless_head_ne (p c : Char) (ps cs : List Char)
    (h : ¬ c.toLower = p) : stripCaseless (p :: ps) (c :: cs) = none := by
  simp [stripCaseless, h]

theorem goTrimSpace_eq_self (s : String)
    (h1 : ∀ c, s.toList.head? = some c → goTrimChar c = false)
    (h2 : ∀ c, s.toList.getLast? = some c → goTrimChar c = false) :
    goTrimSpace s = s := by
  obtain ⟨l⟩ := s
  have hd : l.dropWhile goTrimChar = l := by
    cases hl : l with
    | nil => rfl
    | cons c t =>
      rw [List.dropWhile_cons]
      have := h1 c (by simp [String.toList, hl])
      simp [this]
  have hr : l.reverse.dropWhile goTrimChar = l.reverse := by
    cases hrr : l.reverse with
    | nil => rfl
    | cons c t =>
      rw [List.dropWhile_cons]
      have hlast : l.getLast? = some c := by
        rw [← List.head?_reverse, hrr]
        rfl
      have := h2 c (by simpa [String.toList] using hlast)
      simp [this]
  show String.mk ((((⟨l⟩ : String).toList.dropWhile goTrimChar).reverse.dropWhile
    goTrimChar).reverse) = ⟨l⟩
  show String.mk (((l.dropWhile goTrimChar).reverse.dropWhile goTrimChar).reverse) = ⟨l⟩
  rw [hd, hr, List.reverse_reverse]

theorem head?_filterMap_cons_some {α β : Type} (f : α → Option β)
    (w : α) (ws : List α) (b : β) (h : f w = some b) :
    (List.filterMap f (w :: ws)).head? = some b := by
  simp [List.filterMap_cons, h]

theorem head?_filterMap_cons_none {α β : Type} (f : α → Option β)
    (w : α) (ws : List α) (h : f w = none) :
    (List.filterMap f (w :: ws)).head? = (List.filterMap f ws).head? := by
  simp [List.filterMap_cons, h]

/-- One alternation candidate fails when its literal does not match. -/
theorem condCandidate_none (w : String) (s : List Char)
    (h : stripCaseless w.toList s = none) :
    (match stripCaseless w.toList s with
     | some rest =>
       match matchCondTail rest with
       | some (op, num, pct) => some (w, op, num, pct)
       | none => none
     | none => none) = none := by
  rw [h]

/-- One alternation candidate fails when the literal matches but the
pattern tail does not. -/
theorem condCandidate_tail_none (w : String) (s rest : List Char)
    (h1 : stripCaseless w.toList s = some rest)
    (h2 : matchCondTail rest = none) :
    (match stripCaseless w.toList s with
     | some rest =>
       match matchCondTail rest with
       | some (op, num, pct) => some (w, op, num, pct)
       | none => none
     | none => none) = none := by
  rw [h1]
  dsimp only
  rw [h2]

/-- One alternation candidate succeeds outright. -/
theorem condCandidate_some (w : String) (s rest : List Char)
    (op num : String) (pct : Bool)
    (h1 : stripCaseless w.toList s = some rest)
    (h2 : matchCondTail rest = some (op, num, pct)) :
    (match stripCaseless w.toList s with
     | some rest =>
       match matchCondTail rest with
       | some (op, num, pct) => some (w, op, num, pct)
       | none => none
     | none => none) = some (w, op, num, pct) := by
  rw [h1]
  dsimp only
  rw [h2]

/-- No metric alternative can start at a position whose character does
not lowercase to e or f, so the scanner skips it. -/
theorem matchCondHere_none_head (c : Char) (l : List Char)
    (h1 : ¬ c.toLower = 'e') (h2 : ¬ c.toLower = 'f') :
    matchCondHere (c :: l) = none := by
  have e1 : stripCaseless ("errors".toList) (c :: l) = none :=
    stripCaseless_head_ne 'e' c _ _ h1
  have e2 : stripCaseless ("error".toList) (c :: l) = none :=
    stripCaseless_head_ne 'e' c _ _ h1
  have e3 : stripCaseless ("error_rate".toList) (c :: l) = none :=
    stripCaseless_head_ne 'e' c _ _ h1
  have e4 : stripCaseless ("failures".toList) (c :: l) = none :=
    stripCaseless_head_ne 'f' c _ _ h2
  have e5 : stripCaseless ("failure".toList) (c :: l) = none :=
    stripCaseless_head_ne 'f' c _ _ h2
  simp only [matchCondHere, metricAlternatives, List.filterMap_cons]
  rw [condCandidate_none "errors" _ e1, condCandidate_none "error" _ e2,
    condCandidate_none "error_rate" _ e3, condCandidate_none "failures" _ e4,
    condCandidate_none "failure" _ e5]
  rfl

/-- The left-to-right scan passes over any run of characters that cannot
start a metric word. -/
theorem findCondMatch_append_skip (pre l : List Char)
    (h : ∀ c ∈ pre, ¬ c.toLower = 'e' ∧ ¬ c.toLower = 'f') :
    findCondMatch (pre ++ l) = findCondMatch l := by
  induction pre with
  | nil => rfl
  | cons c t ih =>
    rw [List.cons_append, findCondMatch,
      matchCondHere_none_head c (t ++ l) (h c (List.mem_cons_self c t)).1
        (h c (List.mem_cons_self c t)).2]
    show findCondMatch (t ++ l) = findCondMatch l
    exact ih (fun x hx => h x (List.mem_cons_of_mem c hx))

theorem toList_eq_nil (s : String) (h : s.toList = []) : s = "" := by
  cases s with
  | mk data =>
    have hd : data = [] := h
    subst hd
    rfl

theorem mk_toList (s : String) : String.mk s.toList = s := by
  cases s with
  | mk data => rfl

/-- A successful case-insensitive literal match splits the text. -/
theorem stripCaseless_some_split (pat : List Char) :
    ∀ (s rest : List Char), stripCaseless pat s = some rest →
      ∃ chars, s = chars ++ rest ∧ chars.map Char.toLower = pat := by
  induction pat with
  | nil =>
    intro s rest h
    have h' : some s = some rest := h
    have hs : s = rest := Option.some.inj h'
    exact ⟨[], by rw [hs]; rfl, rfl⟩
  | cons p ps ih =>
    intro s rest h
    cases s with
    | nil => exact Option.noConfusion h
    | cons c cs =>
      by_cases hc : c.toLower = p
      · simp only [stripCaseless, if_pos hc] at h
        obtain ⟨chars, hs, hmap⟩ := ih cs rest h
        refine ⟨c :: chars, ?_, ?_⟩
        · rw [List.cons_append, hs]
        · rw [List.map_cons, hmap, hc]
      · simp only [stripCaseless, if_neg hc] at h
        exact Option.noConfusion h

/-- A successful tail match splits the text into the whitespace runs,
the two captures and the rest, with the percent flag read off the
rest. -/
theorem matchCondTail_some_split (s : List Char) (op num : String) (pct : Bool)
    (h : matchCondTail s = some (op, num, pct)) :
    ∃ ws1 ws2 post,
      s = ws1 ++ (op.toList ++ (ws2 ++ (num.toList ++ post))) ∧
      (∀ c ∈ ws1, isRegexSpace c = true) ∧
      (∀ c ∈ ws2, isRegexSpace c = true) ∧
      pct = pctOf post := by
  rw [matchCondTail] at h
  by_cases he : ((s.dropWhile isRegexSpace).takeWhile isOpChar).isEmpty = true
  · rw [if_pos he] at h
    cases h
  · rw [if_neg he] at h
    by_cases hn : ((((s.dropWhile isRegexSpace).dropWhile isOpChar).dropWhile
        isRegexSpace).takeWhile isNumChar).isEmpty = true
    · rw [if_pos hn] at h
      cases h
    · rw [if_neg hn] at h
      cases h
      refine ⟨s.takeWhile isRegexSpace,
        ((s.dropWhile isRegexSpace).dropWhile isOpChar).takeWhile isRegexSpace,
        (((s.dropWhile isRegexSpace).dropWhile isOpChar).dropWhile
          isRegexSpace).dropWhile isNumChar, ?_, ?_, ?_, ?_⟩
      · show s = s.takeWhile isRegexSpace ++
          (((s.dropWhile isRegexSpace).takeWhile isOpChar) ++
            ((((s.dropWhile isRegexSpace).dropWhile isOpChar).takeWhile
              isRegexSpace) ++
              (((((s.dropWhile isRegexSpace).dropWhile isOpChar).dropWhile
                isRegexSpace).takeWhile isNumChar) ++
                ((((s.dropWhile isRegexSpace).dropWhile isOpChar).dropWhile
                  isRegexSpace).dropWhile isNumChar))))
        rw [List.takeWhile_append_dropWhile, List.takeWhile_append_dropWhile,
          List.takeWhile_append_dropWhile, List.takeWhile_append_dropWhile]
      · intro c hc
        exact List.mem_takeWhile_imp hc
      · intro c hc
        exact List.mem_takeWhile_imp hc
      · rfl

/-- A successful position match names the matched alternative and hands
back the pattern tail equations. -/
theorem matchCondHere_some_split (s : List Char) (m op num : String) (pct : Bool)
    (h : matchCondHere s = some (m, op, num, pct)) :
    ∃ rest, m ∈ metricAlternatives ∧ stripCaseless m.toList s = some rest ∧
      matchCondTail rest = some (op, num, pct) := by
  rw [matchCondHere] at h
  have hmem := List.mem_of_mem_head? h
  rcases List.mem_filterMap.mp hmem with ⟨w, hw, hf⟩
  revert hf
  rcases hsc : stripCaseless w.toList s with _ | rest
  · intro hf
    exact Option.noConfusion hf
  · dsimp only
    rcases htail : matchCondTail rest with _ | ⟨o2, n2, p2⟩
    · intro hf
      exact Option.noConfusion hf
    · intro hf
      have hf' : (w, o2, n2, p2) = (m, op, num, pct) := Option.some.inj hf
      simp only [Prod.mk.injEq] at hf'
      obtain ⟨rfl, rfl, rfl, rfl⟩ := hf'
      exact ⟨rest, hw, hsc, htail⟩

/-- A successful scan is a successful position match at some offset. -/
theorem findCondMatch_some_drop (l : List Char)
    (r : String × String × String × Bool) (h : findCondMatch l = some r) :
    ∃ k, matchCondHere (l.drop k) = some r := by
  induction l with
  | nil =>
    rw [findCondMatch] at h
    exact ⟨0, h⟩
  | cons c cs ih =>
    rw [findCondMatch] at h
    rcases hh : matchCondHere (c :: cs) with _ | r2
    · rw [hh] at h
      obtain ⟨k, hk⟩ := ih h
      exact ⟨k + 1, hk⟩
    · rw [hh] at h
      cases h
      exact ⟨0, hh⟩

/-- Given a successful match right after a prefix that cannot start a
metric word, `ParseCondition` returns the captured fields. -/
theorem parseCondition_build (mw nm : String) (s : String)
    (pre ws1 op ws2 num post : List Char) (q : ℚ)
    (hpre : ∀ c ∈ pre, ¬ c.toLower = 'e' ∧ ¬ c.toLower = 'f')
    (c0 : Char) (cs0 : List Char) (hmwl : mw.toList = c0 :: cs0)
    (hnorm : normalizeMetric mw = nm)
    (hq : parseFloatDigits (String.mk num) = some q)
    (htrim : (goTrimSpace s).toList =
      pre ++ (mw.toList ++ (ws1 ++ (op ++ (ws2 ++ (num ++ post))))))
    (hhere : matchCondHere (mw.toList ++ (ws1 ++ (op ++ (ws2 ++ (num ++ post))))) =
      some (mw, String.mk op, String.mk num, pctOf post)) :
    ParseCondition s = Except.ok
      { metric := nm
        operator := String.mk op
        threshold := q
        isPercent := pctOf post } := by
  have hne : goTrimSpace s ≠ "" := by
    intro he
    rw [he] at htrim
    have hlen := congrArg List.length htrim
    rw [hmwl] at hlen
    have h0 : (("" : String).toList).length = 0 := rfl
    simp only [List.length_append, List.length_cons] at hlen
    omega
  rw [ParseCondition, if_neg hne, htrim, findCondMatch_append_skip pre _ hpre,
    hmwl, List.cons_append]
  have hfind : findCondMatch (c0 :: (cs0 ++
      (ws1 ++ (op ++ (ws2 ++ (num ++ post)))))) =
      some (mw, String.mk op, String.mk num, pctOf post) := by
    rw [findCondMatch]
    have hh : matchCondHere (c0 :: (cs0 ++
        (ws1 ++ (op ++ (ws2 ++ (num ++ post)))))) =
        some (mw, String.mk op, String.mk num, pctOf post) := by
      rw [← List.cons_append, ← hmwl]
      exact hhere
    rw [hh]
  rw [hfind]
  dsimp only
  rw [hq]
  dsimp only
  rw [hnorm]

/-- Soundness of the full parse: the trimmed form of every accepted
expression decomposes around the leftmost match, and the returned fields
are exactly the captures of that match. -/
theorem parseCondition_sound (s : String) (r : CondFields)
    (h : ParseCondition s = Except.ok r) :
    ∃ (w : String) (pre mwChars ws1 oprun ws2 numcap post : List Char),
      w ∈ metricAlternatives ∧
      (goTrimSpace s).toList =
        pre ++ (mwChars ++ (ws1 ++ (oprun ++ (ws2 ++ (numcap ++ post))))) ∧
      mwChars.map Char.toLower = w.toList ∧
      (∀ c ∈ ws1, isRegexSpace c = true) ∧
      oprun ≠ [] ∧ (∀ c ∈ oprun, isOpChar c = true) ∧
      (∀ c ∈ ws2, isRegexSpace c = true) ∧
      numcap ≠ [] ∧ (∀ c ∈ numcap, isNumChar c = true) ∧
      r.metric = normalizeMetric w ∧
      r.operator = String.mk oprun ∧
      parseFloatDigits (String.mk numcap) = some r.threshold ∧
      r.isPercent = pctOf post := by
  rw [ParseCondition] at h
  by_cases he : goTrimSpace s = ""
  · rw [if_pos he] at h
    exact Except.noConfusion h
  · rw [if_neg he] at h
    revert h
    rcases hfind : findCondMatch (goTrimSpace s).toList
      with _ | ⟨metric, op2, num2, pct2⟩
    · intro h
      exact Except.noConfusion h
    · dsimp only
      rcases hpf : parseFloatDigits num2 with _ | q
      · intro h
        exact Except.noConfusion h
      · intro h
        have h' := Except.ok.inj h
        obtain ⟨k, hk⟩ := findCondMatch_some_drop _ _ hfind
        obtain ⟨rest, hw, hsc, htail⟩ := matchCondHere_some_split _ _ _ _ _ hk
        obtain ⟨mwChars, hsplit1, hmap⟩ := stripCaseless_some_split _ _ _ hsc
        obtain ⟨ws1, ws2, post, hsplit2, hws1, hws2, hpct⟩ :=
          matchCondTail_some_split _ _ _ _ htail
        obtain ⟨hopne, hopc, hnumne, hnumc⟩ := matchCondTail_spec _ _ _ _ htail
        refine ⟨metric, (goTrimSpace s).toList.take k, mwChars, ws1, op2.toList,
          ws2, num2.toList, post, hw, ?_, hmap, hws1,
          fun hl => hopne (toList_eq_nil _ hl), hopc, hws2,
          fun hl => hnumne (toList_eq_nil _ hl), hnumc, ?_, ?_, ?_, ?_⟩
        · conv_lhs => rw [← List.take_append_drop k (goTrimSpace s).toList]
          rw [hsplit1, hsplit2]
        · rw [← h']
        · rw [← h', mk_toList]
        · rw [← h']
          exact hpf
        · rw [← h']
          exact hpct

/-- C4 (amended): the acceptance domain of `ParseCondition` is a strict
superset of the claimed whole-string grammar, characterised by the
unanchored leftmost match.  Soundness: the trimmed form of every
accepted expression splits as an arbitrary prefix, then a metric
spelling that lowercases to one of errors/error/error_rate/failures/
failure, an optional whitespace run, a nonempty run over the characters
`<`, `>`, `=` (not necessarily one of the four comparison operators),
another optional whitespace run and a nonempty run of digits and dots,
and the returned fields are exactly the captures: the normalised
metric, the whole operator run, the parsed decimal value of the number
capture and a percent flag read from the character after it.
Rejection: every input whose trimmed form admits no such decomposition
at any position is rejected.  Completeness: every input whose trimmed
form is such a decomposition — with a prefix containing no character
that lowercases to e or f (so the shown match is leftmost), a lowercase
metric spelling, arbitrary (possibly empty) whitespace runs, any
nonempty operator run, a number capture (digits and dots) that parses
as a decimal and is not extended by the tail — is accepted with exactly
those fields. -/
theorem parseCondition_grammar :
    (∀ (s : String) (r : CondFields), ParseCondition s = Except.ok r →
      ∃ (w : String) (pre mwChars ws1 oprun ws2 numcap post : List Char),
        w ∈ metricAlternatives ∧
        (goTrimSpace s).toList =
          pre ++ (mwChars ++ (ws1 ++ (oprun ++ (ws2 ++ (numcap ++ post))))) ∧
        mwChars.map Char.toLower = w.toList ∧
        (∀ c ∈ ws1, isRegexSpace c = true) ∧
        oprun ≠ [] ∧ (∀ c ∈ oprun, isOpChar c = true) ∧
        (∀ c ∈ ws2, isRegexSpace c = true) ∧
        numcap ≠ [] ∧ (∀ c ∈ numcap, isNumChar c = true) ∧
        r.metric = normalizeMetric w ∧
        r.operator = String.mk oprun ∧
        parseFloatDigits (String.mk numcap) = some r.threshold ∧
        r.isPercent = pctOf post) ∧
    (∀ s : String, (∀ k, ¬ SpecCondMatch ((goTrimSpace s).toList.drop k)) →
      ∀ r : CondFields, ParseCondition s ≠ Except.ok r) ∧
    (∀ mw nm : String,
      (mw, nm) ∈ [("errors", "errors"), ("error", "errors"),
        ("error_rate", "error_rate"), ("failures", "failures"),
        ("failure", "failures")] →
      ∀ (s : String) (pre ws1 op ws2 num post : List Char) (q : ℚ),
        (∀ c ∈ pre, ¬ c.toLower = 'e' ∧ ¬ c.toLower = 'f') →
        (∀ c ∈ ws1, isRegexSpace c = true) →
        op ≠ [] → (∀ c ∈ op, isOpChar c = true) →
        (∀ c ∈ ws2, isRegexSpace c = true) →
        num ≠ [] → (∀ c ∈ num, isNumChar c = true) →
        parseFloatDigits (String.mk num) = some q →
        (∀ c, post.head? = some c → isNumChar c = false) →
        (goTrimSpace s).toList =
          pre ++ (mw.toList ++ (ws1 ++ (op ++ (ws2 ++ (num ++ post))))) →
        ParseCondition s = Except.ok
          { metric := nm
            operator := String.mk op
            threshold := q
            isPercent := pctOf post }) := by
  refine ⟨parseCondition_sound, ?_, ?_⟩
  · intro s hno r h
    obtain ⟨w, pre, mwChars, ws1, oprun, ws2, numcap, post, hw, hsplit, hmap,
      hws1, hopne, hopc, hws2, hnumne, hnumc, _, _, _, _⟩ :=
      parseCondition_sound s r h
    refine hno pre.length ⟨w, mwChars, ws1, oprun, ws2, numcap, post, hw, ?_,
      hmap, hws1, hopne, hopc, hws2, hnumne, hnumc⟩
    rw [hsplit, List.drop_left]
  · intro mw nm hmw s pre ws1 op ws2 num post q hpre hws1 hop hopc hws2
      hnum hnumc hq hpost htrim
    have htail : matchCondTail (ws1 ++ (op ++ (ws2 ++ (num ++ post)))) =
        some (String.mk op, String.mk num, pctOf post) :=
      matchCondTail_build ws1 op ws2 num post hws1 hop hopc hws2 hnum hnumc hpost
    have hRhead : ∀ c, (ws1 ++ (op ++ (ws2 ++ (num ++ post)))).head? = some c →
        (isRegexSpace c = true ∨ isOpChar c = true) :=
      wsOp_head_fact ws1 op (ws2 ++ (num ++ post)) hws1 hop hopc
    simp only [List.mem_cons, List.not_mem_nil, or_false, Prod.mk.injEq] at hmw
    rcases hmw with ⟨rfl, rfl⟩ | ⟨rfl, rfl⟩ | ⟨rfl, rfl⟩ | ⟨rfl, rfl⟩ | ⟨rfl, rfl⟩
    · -- mw = "errors"
      have hs1 : stripCaseless ("errors".toList) ("errors".toList ++
          (ws1 ++ (op ++ (ws2 ++ (num ++ post))))) =
          some (ws1 ++ (op ++ (ws2 ++ (num ++ post)))) :=
        stripCaseless_self _ _ (by decide)
      refine parseCondition_build "errors" "errors" s pre ws1 op ws2 num post q
        hpre 'e' ("rrors".toList) rfl (by decide) hq htrim ?_
      simp only [matchCondHere, metricAlternatives, List.filterMap_cons]
      rw [condCandidate_some "errors" _ _ (String.mk op) (String.mk num)
        (pctOf post) hs1 htail]
      rfl
    · -- mw = "error"
      have hs1 : stripCaseless ("errors".toList) ("error".toList ++
          (ws1 ++ (op ++ (ws2 ++ (num ++ post))))) = none := by
        rw [show ("errors".toList) = "error".toList ++ ['s'] from rfl,
          stripCaseless_shift ("error".toList) ['s'] _ (by decide)]
        exact stripCaseless_single_none 's' _
          (fun c hc => spaceOrOp_not_s c (hRhead c hc))
      have hs2 : stripCaseless ("error".toList) ("error".toList ++
          (ws1 ++ (op ++ (ws2 ++ (num ++ post))))) =
          some (ws1 ++ (op ++ (ws2 ++ (num ++ post)))) :=
        stripCaseless_self _ _ (by decide)
      refine parseCondition_build "error" "errors" s pre ws1 op ws2 num post q
        hpre 'e' ("rror".toList) rfl (by decide) hq htrim ?_
      simp only [matchCondHere, metricAlternatives, List.filterMap_cons]
      rw [condCandidate_none "errors" _ hs1,
        condCandidate_some "error" _ _ (String.mk op) (String.mk num)
          (pctOf post) hs2 htail]
      rfl
    · -- mw = "error_rate"
      have hsplit : ("error_rate".toList ++
          (ws1 ++ (op ++ (ws2 ++ (num ++ post))))) =
          "error".toList ++ ('_' :: ("rate".toList ++
            (ws1 ++ (op ++ (ws2 ++ (num ++ post)))))) := rfl
      have hs1 : stripCaseless ("errors".toList) ("error_rate".toList ++
          (ws1 ++ (op ++ (ws2 ++ (num ++ post))))) = none := by
        rw [hsplit, show ("errors".toList) = "error".toList ++ ['s'] from rfl,
          stripCaseless_shift ("error".toList) ['s'] _ (by decide)]
        exact stripCaseless_head_ne 's' '_' [] _ (by decide)
      have hs2 : stripCaseless ("error".toList) ("error_rate".toList ++
          (ws1 ++ (op ++ (ws2 ++ (num ++ post))))) =
          some ('_' :: ("rate".toList ++
            (ws1 ++ (op ++ (ws2 ++ (num ++ post)))))) := by
        rw [hsplit]
        exact stripCaseless_self _ _ (by decide)
      have htail0 : matchCondTail ('_' :: ("rate".toList ++
          (ws1 ++ (op ++ (ws2 ++ (num ++ post)))))) = none := by
        rw [matchCondTail]
        simp [List.dropWhile_cons, List.takeWhile_cons,
          (show isRegexSpace '_' = false by decide),
          (show isOpChar '_' = false by decide)]
      have hs3 : stripCaseless ("error_rate".toList) ("error_rate".toList ++
          (ws1 ++ (op ++ (ws2 ++ (num ++ post))))) =
          some (ws1 ++ (op ++ (ws2 ++ (num ++ post)))) :=
        stripCaseless_self _ _ (by decide)
      refine parseCondition_build "error_rate" "error_rate" s pre ws1 op ws2
        num post q hpre 'e' ("rror_rate".toList) rfl (by decide) hq htrim ?_
      simp only [matchCondHere, metricAlternatives, List.filterMap_cons]
      rw [condCandidate_none "errors" _ hs1,
        condCandidate_tail_none "error" _ _ hs2 htail0,
        condCandidate_some "error_rate" _ _ (String.mk op) (String.mk num)
          (pctOf post) hs3 htail]
      rfl
    · -- mw = "failures"
      have hs1 : stripCaseless ("errors".toList) ("failures".toList ++
          (ws1 ++ (op ++ (ws2 ++ (num ++ post))))) = none :=
        stripCaseless_head_ne 'e' 'f' _ _ (by decide)
      have hs2 : stripCaseless ("error".toList) ("failures".toList ++
          (ws1 ++ (op ++ (ws2 ++ (num ++ post))))) = none :=
        stripCaseless_head_ne 'e' 'f' _ _ (by decide)
      have hs3 : stripCaseless ("error_rate".toList) ("failures".toList ++
          (ws1 ++ (op ++ (ws2 ++ (num ++ post))))) = none :=
        stripCaseless_head_ne 'e' 'f' _ _ (by decide)
      have hs4 : stripCaseless ("failures".toList) ("failures".toList ++
          (ws1 ++ (op ++ (ws2 ++ (num ++ post))))) =
          some (ws1 ++ (op ++ (ws2 ++ (num ++ post)))) :=
        stripCaseless_self _ _ (by decide)
      refine parseCondition_build "failures" "failures" s pre ws1 op ws2 num
        post q hpre 'f' ("ailures".toList) rfl (by decide) hq htrim ?_
      simp only [matchCondHere, metricAlternatives, List.filterMap_cons]
      rw [condCandidate_none "errors" _ hs1,
        condCandidate_none "error" _ hs2,
        condCandidate_none "error_rate" _ hs3,
        condCandidate_some "failures" _ _ (String.mk op) (String.mk num)
          (pctOf post) hs4 htail]
      rfl
    · -- mw = "failure"
      have hs1 : stripCaseless ("errors".toList) ("failure".toList ++
          (ws1 ++ (op ++ (ws2 ++ (num ++ post))))) = none :=
        stripCaseless_head_ne 'e' 'f' _ _ (by decide)
      have hs2 : stripCaseless ("error".toList) ("failure".toList ++
          (ws1 ++ (op ++ (ws2 ++ (num ++ post))))) = none :=
        stripCaseless_head_ne 'e' 'f' _ _ (by decide)
      have hs3 : stripCaseless ("error_rate".toList) ("failure".toList ++
          (ws1 ++ (op ++ (ws2 ++ (num ++ post))))) = none :=
        stripCaseless_head_ne 'e' 'f' _ _ (by decide)
      have hs4 : stripCaseless ("failures".toList) ("failure".toList ++
          (ws1 ++ (op ++ (ws2 ++ (num ++ post))))) = none := by
        rw [show ("failures".toList) = "failure".toList ++ ['s'] from rfl,
          stripCaseless_shift ("failure".toList) ['s'] _ (by decide)]
        exact stripCaseless_single_none 's' _
          (fun c hc => spaceOrOp_not_s c (hRhead c hc))
      have hs5 : stripCaseless ("failure".toList) ("failure".toList ++
          (ws1 ++ (op ++ (ws2 ++ (num ++ post))))) =
          some (ws1 ++ (op ++ (ws2 ++ (num ++ post)))) :=
        stripCaseless_self _ _ (by decide)
      refine parseCondition_build "failure" "failures" s pre ws1 op ws2 num
        post q hpre 'f' ("ailure".toList) rfl (by decide) hq htrim ?_
      simp only [matchCondHere, metricAlternatives, List.filterMap_cons]
      rw [condCandidate_none "errors" _ hs1,
        condCandidate_none "error" _ hs2,
        condCandidate_none "error_rate" _ hs3,
        condCandidate_none "failures" _ hs4,
        condCandidate_some "failure" _ _ (String.mk op) (String.mk num)
          (pctOf post) hs5 htail]
      rfl

/-- C4 counterexample: `ParseCondition` accepts "errors = 10" — an
expression whose operator `=` is not one of `>`, `>=`, `<`, `<=` — so it
is not the case that every input outside the claimed grammar is rejected
at load time. -/
theorem parseCondition_accepts_eq_operator :
    (ParseCondition "errors = 10").isOk = true ∧
    (match ParseCondition "errors = 10" with
     | Except.ok r => (r.metric, r.operator, r.isPercent)
     | Except.error _ => ("", "", true)) = ("errors", "=", false) ∧
    ("=" ∈ [">", ">=", "<", "<="]) = False := by
  refine ⟨rfl, rfl, by simp⟩

/-! ## Witnesses: the hypothesis-bearing claim theorems applied at
concrete inputs. -/

theorem check_after_trip_constant_witness :
    Check { metric := "errors", operator := ">", threshold := 10, isPercent := true, minSamples := 100 }
        { tripped := true, reason := "r" } 5 1 0 =
      (true, { tripped := true, reason := "r" }) :=
  (check_after_trip_constant
    { metric := "errors", operator := ">", threshold := 10, isPercent := true, minSamples := 100 }
    { tripped := true, reason := "r" } rfl 5 1 0).1

theorem parseCondition_grammar_witness :
    ParseCondition "failure >= 25%" = Except.ok
      { metric := "failures"
        operator := String.mk ['>', '=']
        threshold := ['2', '5'].foldl
          (fun acc c => acc * 10 + ((c.toNat - '0'.toNat : Nat) : ℚ)) 0
        isPercent := pctOf ['%'] } := by
  have hmw : ("failure", "failures") ∈ [("errors", "errors"), ("error", "errors"),
      ("error_rate", "error_rate"), ("failures", "failures"),
      ("failure", "failures")] := by decide
  have hpre : ∀ c ∈ ([] : List Char), ¬ c.toLower = 'e' ∧ ¬ c.toLower = 'f' := by
    simp
  have hws1 : ∀ c ∈ [' '], isRegexSpace c = true := by decide
  have hop : (['>', '='] : List Char) ≠ [] := by decide
  have hopc : ∀ c ∈ ['>', '='], isOpChar c = true := by decide
  have hws2 : ∀ c ∈ [' '], isRegexSpace c = true := by decide
  have hnum : (['2', '5'] : List Char) ≠ [] := by decide
  have hnumc : ∀ c ∈ ['2', '5'], isNumChar c = true := by decide
  have hq := parseFloatDigits_digits ['2', '5'] (by decide) (by decide)
  have hpost : ∀ c, (['%'] : List Char).head? = some c → isNumChar c = false := by
    intro c hc
    simp only [List.head?_cons, Option.some.injEq] at hc
    rw [← hc]
    decide
  have htrim : (goTrimSpace "failure >= 25%").toList =
      [] ++ ("failure".toList ++ ([' '] ++ (['>', '='] ++ ([' '] ++
        (['2', '5'] ++ ['%']))))) := by decide
  have h := parseCondition_grammar.2.2 "failure" "failures" hmw
    "failure >= 25%" [] [' '] ['>', '='] [' '] ['2', '5'] ['%'] _
    hpre hws1 hop hopc hws2 hnum hnumc hq hpost htrim
  exact h

theorem retry_policy_witness :
    executeCompiledStepWithRetry 3 (fun _ =>
        { latencyUs := 7, status := 200, bytes := 1, error := none,
          assertionError := none, protocol := "HTTP/1.1" }) =
      ({ latencyUs := 7, status := 200, bytes := 1, error := none,
         assertionError := none, protocol := "HTTP/1.1" }, 1) :=
  (retry_policy 3 (fun _ =>
    { latencyUs := 7, status := 200, bytes := 1, error := none,
      assertionError := none, protocol := "HTTP/1.1" })).1 (by decide)

theorem csvFeeder_roundRobin_witness :
    feederNth { idx := 0, records := [[("k", "a")], [("k", "b")], [("k", "c")]] } 4 =
      [("k", "b")] := by
  have h := (csvFeeder_roundRobin
    { idx := 0, records := [[("k", "a")], [("k", "b")], [("k", "c")]] } rfl).1 4
  simpa using h

theorem newCSVFeeder_ok_characterisation_witness :
    (NewCSVFeeder [["a", "b"], ["1", "2"]]).isOk = true :=
  (newCSVFeeder_ok_characterisation [["a", "b"], ["1", "2"]]).1.mpr (by decide)

theorem unknown_refs_round_trip_to_literal_witness :
    getValue constGenEnv "myvar" [] = "\x7b\x7bmyvar\x7d\x7d" ∧
    Execute { funcMap := [] } constGenEnv []
        { parts := [{ isLiteral := false, literal := "", ref := "foo(1)" }]
          hasVars := true } =
      "\x7b\x7bfoo(1)\x7d\x7d" :=
  ⟨unknown_refs_round_trip_to_literal.1 constGenEnv [] "myvar"
      rfl (by decide) (by decide) (by decide) (by decide),
    unknown_refs_round_trip_to_literal.2 { funcMap := [] } constGenEnv [] "foo(1)" 3
      (by decide) (by decide) rfl⟩

theorem timeout_status_reclassified_witness :
    msetGet (MonitorAdd id 0
        { latencyUs := 5, status := 0, bytes := 0,
          error := some { msg := "read tcp: i/o timeout", timeoutFlag := true },
          assertionError := none, protocol := "" } false NewMonitor).statusCodes 1 =
      msetGet NewMonitor.statusCodes 1 + 1 :=
  ((timeout_status_reclassified id 0
    { latencyUs := 5, status := 0, bytes := 0,
      error := some { msg := "read tcp: i/o timeout", timeoutFlag := true },
      assertionError := none, protocol := "" } false NewMonitor
    { msg := "read tcp: i/o timeout", timeoutFlag := true } rfl rfl).1 rfl).1

theorem errored_latency_counted_in_avg_not_hist_witness :
    (bucketAt (MonitorAdd id 2
        { latencyUs := 5, status := 0, bytes := 0,
          error := some { msg := "connection reset by peer", timeoutFlag := false },
          assertionError := none, protocol := "" } false NewMonitor) 2).totalLatency =
      (bucketAt (getOrCreateBucket NewMonitor 2) 2).totalLatency + 5 :=
  (errored_latency_counted_in_avg_not_hist id 2
    { latencyUs := 5, status := 0, bytes := 0,
      error := some { msg := "connection reset by peer", timeoutFlag := false },
      assertionError := none, protocol := "" } false NewMonitor
    (show 2 % NewMonitor.bucketRingCap < NewMonitor.bucketRing.length by
      show 2 % bucketWindow < (List.replicate bucketWindow emptyBucket).length
      rw [List.length_replicate]
      decide)).1

end Sayl
